import Mathlib

/-!
# Verification of the portfolio-backtester calculation engine

Shallow embedding of the calculation functions of
`src/components/PortfolioBacktester.tsx` (portfolio simulation, withdrawal
overlay, monthly-return aggregation, trend-following analysis), with numbers
modelled as exact rationals (reals only where the source uses fractional
powers / square roots), and theorems settling the frozen claims about them.

JavaScript conventions modelled explicitly:
* a missing or `NaN` table entry is `Option.none`;
* truthiness tests (`x && x > 0`, `assetShares[asset]`, `!yearStart`) are
  translated as the corresponding `≠ 0` / `Option` case splits;
* ISO `YYYY-MM-DD` date strings compare lexicographically, which coincides
  with lexicographic comparison of the `(year, month, day)` triples.
-/

namespace Backtester

/-- A calendar date.  `m` is the 0-based month exactly as returned by the
JavaScript `Date.getMonth()`. -/
structure Date where
  y : Nat
  m : Nat
  d : Nat
deriving DecidableEq, Repr

instance : Inhabited Date := ⟨⟨0, 0, 0⟩⟩

/-- Lexicographic order on dates; agrees with JavaScript string comparison
of ISO `YYYY-MM-DD` strings. -/
def Date.leb (a b : Date) : Bool :=
  if a.y ≠ b.y then a.y < b.y
  else if a.m ≠ b.m then a.m < b.m
  else a.d ≤ b.d

/-- Strict lexicographic order on dates. -/
def Date.ltb (a b : Date) : Bool :=
  if a.y ≠ b.y then a.y < b.y
  else if a.m ≠ b.m then a.m < b.m
  else a.d < b.d

/-- The whole-month difference `(y2−y1)*12+(m2−m1)` used by the rebalance and
withdrawal triggers (source lines 670-672, 754-756, 807-809). -/
def monthDiff (cur last : Date) : Int :=
  ((cur.y : Int) - last.y) * 12 + ((cur.m : Int) - last.m)

/-- One row of the price table: a date plus ticker→price entries.
An absent ticker (or a `NaN` produced by `Number(row[t])`) is `none`. -/
structure AssetRow where
  date : Date
  prices : List (String × ℚ)
deriving DecidableEq, Repr

instance : Inhabited AssetRow := ⟨⟨⟨0, 0, 0⟩, []⟩⟩

/-- `Number(row[t])`, with `none` standing for `undefined`/`NaN`. -/
def AssetRow.get (row : AssetRow) (t : String) : Option ℚ :=
  row.prices.lookup t

/-- One leg of a portfolio: `{asset, weight, fx}` where `fx = ""` means no
FX conversion (source `PortfolioAsset`). -/
structure PortfolioAsset where
  asset : String
  weight : ℚ
  fx : String
deriving DecidableEq, Repr

/-- A portfolio: the list of legs (the other fields of the source `Portfolio`
record — id, name, color — play no part in the calculations). -/
structure Portfolio where
  assets : List PortfolioAsset
deriving DecidableEq, Repr

/-- Selected date range (inclusive endpoints, compared as ISO strings). -/
structure DateRange where
  start : Date
  ending : Date
deriving DecidableEq, Repr

/-- One equity-curve point `{date, value, drawdown}` (source `ReturnPoint`). -/
structure ReturnPoint where
  date : Date
  value : ℚ
  drawdown : ℚ
deriving DecidableEq, Repr

instance : Inhabited ReturnPoint := ⟨⟨⟨0, 0, 0⟩, 0, 0⟩⟩

/-- Rebalancing frequency selector. -/
inductive RebalanceFreq where
  | monthly
  | quarterly
  | yearly
deriving DecidableEq, Repr

/-- `getFxRate` (source lines 520-524): the FX column's value on this row if
an FX ticker is set and the value is positive, else 1. -/
def getFxRate (row : AssetRow) (fxTicker : String) : ℚ :=
  if fxTicker = "" then 1
  else
    match row.get fxTicker with
    | some rate => if 0 < rate then rate else 1
    | none => 1

/-- Body of the initial-share loop of `calculatePortfolioReturns` (source
lines 646-656): the leg's ticker gets
`startingCapital·weight/100 / (price·fxRate)` when the FX-adjusted price is
positive and 0 otherwise. -/
def initStep (row0 : AssetRow) (startingCapital : ℚ) (sh : String → ℚ)
    (a : PortfolioAsset) : String → ℚ :=
  let fxRate := getFxRate row0 a.fx
  match row0.get a.asset with
  | some p =>
      let adjustedPrice := p * fxRate
      if 0 < adjustedPrice then
        Function.update sh a.asset
          (startingCapital * (a.weight / 100) / adjustedPrice)
      else
        Function.update sh a.asset 0
  | none => Function.update sh a.asset 0

/-- Initial share computation of `calculatePortfolioReturns` (source lines
645-656): fold `initStep` over the legs starting from the empty share map. -/
def initShares (assets : List PortfolioAsset) (row0 : AssetRow)
    (startingCapital : ℚ) : String → ℚ :=
  assets.foldl (initStep row0 startingCapital) (fun _ => 0)

/-- Portfolio value on one row (source lines 685-693): sum of
`shares · adjustedPrice` over legs whose adjusted price is positive and whose
share count is truthy (non-zero). -/
def portfolioValue (assets : List PortfolioAsset) (row : AssetRow)
    (sh : String → ℚ) : ℚ :=
  assets.foldl
    (fun acc a =>
      let fxRate := getFxRate row a.fx
      match row.get a.asset with
      | some p =>
          let adjustedPrice := p * fxRate
          if 0 < adjustedPrice ∧ sh a.asset ≠ 0 then
            acc + sh a.asset * adjustedPrice
          else acc
      | none => acc)
    0

/-- Body of the rebalancing loop (source lines 697-705): a leg with a
positive adjusted price gets `portfolioValue·weight/100 / adjustedPrice`;
other legs keep their shares. -/
def rebStep (row : AssetRow) (pv : ℚ) (s : String → ℚ)
    (a : PortfolioAsset) : String → ℚ :=
  let fxRate := getFxRate row a.fx
  match row.get a.asset with
  | some p =>
      let adjustedPrice := p * fxRate
      if 0 < adjustedPrice then
        Function.update s a.asset (pv * (a.weight / 100) / adjustedPrice)
      else s
  | none => s

/-- Share reset on a rebalance (source lines 697-705): fold `rebStep` over
the legs. -/
def rebalanceShares (assets : List PortfolioAsset) (row : AssetRow)
    (pv : ℚ) (sh : String → ℚ) : String → ℚ :=
  assets.foldl (rebStep row pv) sh

/-- Frequency test of the rebalance trigger (source lines 674-680). -/
def shouldRebalanceAt (freq : RebalanceFreq) (diff : Int) : Bool :=
  match freq with
  | .monthly => 1 ≤ diff
  | .quarterly => 3 ≤ diff
  | .yearly => 12 ≤ diff

/-- Mutable state of the `calculatePortfolioReturns` loop. -/
structure SimState where
  shares : String → ℚ
  runningMax : ℚ
  lastRebalance : Date

instance : Inhabited SimState := ⟨⟨fun _ => 0, 0, ⟨0, 0, 0⟩⟩⟩

/-- One iteration of the `calculatePortfolioReturns` loop (source lines
663-722).  `canRebalance` is the `i > 0` guard. -/
def simStep (assets : List PortfolioAsset) (freq : RebalanceFreq)
    (canRebalance : Bool) (st : SimState) (row : AssetRow) :
    SimState × ReturnPoint :=
  let diff := monthDiff row.date st.lastRebalance
  let shouldRebalance := canRebalance ∧ shouldRebalanceAt freq diff
  let pv := portfolioValue assets row st.shares
  let sh' :=
    if shouldRebalance ∧ 0 < pv then rebalanceShares assets row pv st.shares
    else st.shares
  let last' :=
    if shouldRebalance ∧ 0 < pv then row.date else st.lastRebalance
  let max' := if st.runningMax < pv then pv else st.runningMax
  let drawdown := (pv - max') / max' * 100
  (⟨sh', max', last'⟩, ⟨row.date, pv, drawdown⟩)

/-- The `calculatePortfolioReturns` loop over the filtered rows; the first row
is processed with the `i > 0` guard off. -/
def simGo (assets : List PortfolioAsset) (freq : RebalanceFreq) :
    Bool → SimState → List AssetRow → List ReturnPoint
  | _, _, [] => []
  | canReb, st, row :: rows =>
      let (st', pt) := simStep assets freq canReb st row
      pt :: simGo assets freq true st' rows

/-- The sequence of loop states (state *before* each row, then the final
state): the scan of `simStep` along the rows, exposing the internal state of
`calculatePortfolioReturns` for the rebalancing and drawdown claims. -/
def simStates (assets : List PortfolioAsset) (freq : RebalanceFreq) :
    Bool → SimState → List AssetRow → List SimState
  | _, st, [] => [st]
  | canReb, st, row :: rows =>
      st :: simStates assets freq true (simStep assets freq canReb st row).1 rows

/-- The date-range filter applied to the price table (source lines 631-633). -/
def filteredRows (data : List AssetRow) (range : DateRange) : List AssetRow :=
  data.filter fun row => Date.leb range.start row.date &&
    Date.leb row.date range.ending

/-- `calculatePortfolioReturns` (source lines 623-725).  `none` models the
source's `null`. -/
def calculatePortfolioReturns (portfolio : Portfolio) (data : List AssetRow)
    (range : DateRange) (startingCapital : ℚ) (freq : RebalanceFreq) :
    Option (List ReturnPoint) :=
  if portfolio.assets = [] ∨ data = [] then none
  else if 1 / 100 <
      |portfolio.assets.foldl (fun s a => s + a.weight) 0 - 100| then none
  else
    match filteredRows data range with
    | row0 :: row1 :: rows =>
        some (simGo portfolio.assets freq false
          ⟨initShares portfolio.assets row0 startingCapital,
            startingCapital, row0.date⟩ (row0 :: row1 :: rows))
    | _ => none

/-! ## Shared concrete fixtures used by counterexamples and witnesses -/

/-- 2020-01-31. -/
def dJan : Date := ⟨2020, 0, 31⟩
/-- 2020-02-28. -/
def dFeb : Date := ⟨2020, 1, 28⟩
/-- 2020-03-31. -/
def dMar : Date := ⟨2020, 2, 31⟩
/-- A wide date range containing all fixture dates. -/
def wideRange : DateRange := ⟨⟨2000, 0, 1⟩, ⟨2030, 0, 1⟩⟩

/-- A small three-row price table with tickers `A`, `B` and FX column `FX`. -/
def demoData : List AssetRow :=
  [⟨dJan, [("A", 100), ("FX", 4), ("B", 50)]⟩,
   ⟨dFeb, [("A", 110), ("FX", 4), ("B", 55)]⟩,
   ⟨dMar, [("A", 121), ("FX", 4), ("B", 44)]⟩]

/-- The spec's concrete scenario: a two-leg 60/40 portfolio whose first leg is
FX-converted at rate 4.0. -/
def demoLegs : List PortfolioAsset := [⟨"A", 60, "FX"⟩, ⟨"B", 40, ""⟩]

/-! ## List helper lemmas -/

theorem foldl_add_weight (l : List PortfolioAsset) :
    ∀ s : ℚ, l.foldl (fun s a => s + a.weight) s = s + (l.map (·.weight)).sum := by
  induction l with
  | nil => intro s; simp
  | cons b t ih => intro s; simp [List.foldl_cons, ih, add_assoc]

/-! ## Claim C1 — failure conditions and failure result of the simulator -/

/-- Shared helper: exact characterization of the `null` results of
`calculatePortfolioReturns`. -/
theorem calcPR_none_iff (portfolio : Portfolio) (data : List AssetRow)
    (range : DateRange) (startingCapital : ℚ) (freq : RebalanceFreq) :
    calculatePortfolioReturns portfolio data range startingCapital freq
        = none ↔
      portfolio.assets = [] ∨
      1 / 100 < |(portfolio.assets.map (·.weight)).sum - 100| ∨
      (filteredRows data range).length < 2 := by
  unfold calculatePortfolioReturns
  have hsum : portfolio.assets.foldl (fun s a => s + a.weight) 0 =
      (portfolio.assets.map (·.weight)).sum := by
    simpa using foldl_add_weight portfolio.assets 0
  rcases em (portfolio.assets = []) with hA | hA
  · rw [if_pos (Or.inl hA)]
    exact iff_of_true rfl (Or.inl hA)
  · rcases em (data = []) with hD | hD
    · rw [if_pos (Or.inr hD)]
      refine iff_of_true rfl (Or.inr (Or.inr ?_))
      rw [show filteredRows data range = [] by simp [filteredRows, hD]]
      decide
    · rw [if_neg (by simp [hA, hD]), hsum]
      by_cases hw : 1 / 100 < |(portfolio.assets.map (·.weight)).sum - 100|
      · rw [if_pos hw]
        exact iff_of_true rfl (Or.inr (Or.inl hw))
      · rw [if_neg hw]
        rcases hfl : filteredRows data range with _ | ⟨r0, _ | ⟨r1, rows⟩⟩
        · exact iff_of_true rfl (Or.inr (Or.inr (by simp)))
        · exact iff_of_true rfl (Or.inr (Or.inr (by simp)))
        · refine iff_of_false (by simp) ?_
          rintro (h | h | h)
          · exact hA h
          · exact hw h
          · simp only [List.length_cons] at h
            omega

/-- C1 counterexample: the two failure causes of the claim — empty allocation
versus weights that do not sum to 100 — both yield the one bare result
`none` on the same (otherwise simulable) price table.  The failure value is
`Option.none`, which carries no reason string at all, so the two distinct
reasons cannot be read off the result; the claim's "typed result carrying a
human-readable reason string" is false of the code. -/
theorem C1_counterexample :
    calculatePortfolioReturns ⟨[]⟩ demoData wideRange 1000 .monthly = none ∧
    calculatePortfolioReturns ⟨[⟨"A", 50, ""⟩]⟩ demoData wideRange 1000
      .monthly = none ∧
    calculatePortfolioReturns ⟨[]⟩ demoData wideRange 1000 .monthly =
      calculatePortfolioReturns ⟨[⟨"A", 50, ""⟩]⟩ demoData wideRange 1000
        .monthly ∧
    (calculatePortfolioReturns ⟨[⟨"A", 60, "FX"⟩, ⟨"B", 40, ""⟩]⟩ demoData
        wideRange 1000 .monthly).isSome = true := by
  have h1 : calculatePortfolioReturns ⟨[]⟩ demoData wideRange 1000
      .monthly = none :=
    (calcPR_none_iff _ _ _ _ _).mpr (Or.inl rfl)
  have h2 : calculatePortfolioReturns ⟨[⟨"A", 50, ""⟩]⟩ demoData wideRange
      1000 .monthly = none :=
    (calcPR_none_iff _ _ _ _ _).mpr (Or.inr (Or.inl (by norm_num)))
  refine ⟨h1, h2, h1.trans h2.symm, ?_⟩
  rw [Option.isSome_iff_ne_none, Ne, calcPR_none_iff]
  push_neg
  refine ⟨by simp, by norm_num, ?_⟩
  have : filteredRows demoData wideRange = demoData := by decide
  rw [this]; decide

/-- C1 (amended): `calculatePortfolioReturns` fails — returning the bare
`null` result `none`, never an exception and with no attached reason — exactly
when the weights do not sum to 100 within the 0.01 tolerance, the allocation
has no legs, or the date-range-filtered price table has fewer than 2 rows;
otherwise it returns an equity curve. -/
theorem C1_failure_iff (portfolio : Portfolio) (data : List AssetRow)
    (range : DateRange) (startingCapital : ℚ) (freq : RebalanceFreq) :
    calculatePortfolioReturns portfolio data range startingCapital freq
        = none ↔
      portfolio.assets = [] ∨
      1 / 100 < |(portfolio.assets.map (·.weight)).sum - 100| ∨
      (filteredRows data range).length < 2 :=
  calcPR_none_iff portfolio data range startingCapital freq

/-! ## Claim C4 — initial share computation -/

/-- The claim's description of a leg's initial share count, spelled out
independently of `getFxRate`: the FX rate is the FX column's value when the
leg has an FX ticker and that value is positive, and 1 otherwise; shares are
`startingCapital·weight/100` over the adjusted price when that is positive,
and 0 otherwise. -/
def legInitValue (row0 : AssetRow) (startingCapital : ℚ)
    (a : PortfolioAsset) : ℚ :=
  match row0.get a.asset with
  | some p =>
      let fxRate :=
        if a.fx = "" then 1
        else
          match row0.get a.fx with
          | some r => if 0 < r then r else 1
          | none => 1
      if 0 < p * fxRate then
        startingCapital * (a.weight / 100) / (p * fxRate)
      else 0
  | none => 0

theorem initStep_apply_ne (row0 : AssetRow) (cap : ℚ) (sh : String → ℚ)
    (a : PortfolioAsset) (t : String) (ht : t ≠ a.asset) :
    initStep row0 cap sh a t = sh t := by
  unfold initStep
  cases hp : row0.get a.asset with
  | none => exact Function.update_noteq ht _ _
  | some p =>
      dsimp only
      split <;> exact Function.update_noteq ht _ _

theorem initStep_apply_self (row0 : AssetRow) (cap : ℚ) (sh : String → ℚ)
    (a : PortfolioAsset) :
    initStep row0 cap sh a a.asset = legInitValue row0 cap a := by
  unfold initStep legInitValue getFxRate
  cases hp : row0.get a.asset <;>
    simp [hp, ite_apply, Function.update_same]

theorem initStep_foldl_not_mem (row0 : AssetRow) (cap : ℚ)
    (l : List PortfolioAsset) (t : String) (h : t ∉ l.map (·.asset)) :
    ∀ sh : String → ℚ, l.foldl (initStep row0 cap) sh t = sh t := by
  induction l with
  | nil => intro sh; rfl
  | cons b rest ih =>
      intro sh
      simp only [List.map_cons, List.mem_cons, not_or] at h
      rw [List.foldl_cons, ih h.2, initStep_apply_ne _ _ _ _ _ h.1]

theorem initStep_foldl_spec (row0 : AssetRow) (cap : ℚ)
    (l : List PortfolioAsset) (hnd : (l.map (·.asset)).Nodup) :
    ∀ (sh : String → ℚ), ∀ a ∈ l,
      l.foldl (initStep row0 cap) sh a.asset = legInitValue row0 cap a := by
  induction l with
  | nil => intro sh a ha; cases ha
  | cons b rest ih =>
      intro sh a ha
      simp only [List.map_cons, List.nodup_cons] at hnd
      rw [List.foldl_cons]
      rcases List.mem_cons.mp ha with rfl | hmem
      · rw [initStep_foldl_not_mem row0 cap rest a.asset hnd.1,
          initStep_apply_self]
      · exact ih hnd.2 _ a hmem

/-- C4: for an allocation whose legs carry pairwise distinct tickers, the
initial share count of every leg on the first filtered row is
`startingCapital·weight/100 / (price·fxRate)` when the FX-adjusted price is
positive, and 0 when the price is missing or non-positive — with
`fxRate = 1` when no FX ticker is set or the FX value is missing or
non-positive. -/
theorem initShares_spec (assets : List PortfolioAsset) (row0 : AssetRow)
    (startingCapital : ℚ) (hnd : (assets.map (·.asset)).Nodup) :
    ∀ a ∈ assets,
      initShares assets row0 startingCapital a.asset =
        legInitValue row0 startingCapital a :=
  initStep_foldl_spec row0 startingCapital assets hnd _

/-- C4 witness: the spec's 60/40 scenario — starting capital 10000, first leg
FX-converted at rate 4.0 — gives initial shares
`(10000×0.6)/(100×4.0) = 15` and `(10000×0.4)/50 = 80`. -/
theorem initShares_spec_witness :
    initShares demoLegs (AssetRow.mk dJan [("A", 100), ("FX", 4), ("B", 50)])
        10000 "A" = 15 ∧
    initShares demoLegs (AssetRow.mk dJan [("A", 100), ("FX", 4), ("B", 50)])
        10000 "B" = 80 := by
  have hA : (AssetRow.mk dJan [("A", 100), ("FX", 4), ("B", 50)]).get "A"
      = some 100 := by decide
  have hB : (AssetRow.mk dJan [("A", 100), ("FX", 4), ("B", 50)]).get "B"
      = some 50 := by decide
  have hFX : (AssetRow.mk dJan [("A", 100), ("FX", 4), ("B", 50)]).get "FX"
      = some 4 := by decide
  constructor
  · exact (initShares_spec demoLegs _ 10000 (by decide) ⟨"A", 60, "FX"⟩
      (by decide)).trans
      (by norm_num [legInitValue, hA, hFX,
        eq_false (show ¬("FX" : String) = "" by decide)])
  · exact (initShares_spec demoLegs _ 10000 (by decide) ⟨"B", 40, ""⟩
      (by decide)).trans (by norm_num [legInitValue, hB])

/-! ## The simulator's state trace, shared by the rebalancing and drawdown
claims -/

/-- The sequence of loop states of a `calculatePortfolioReturns` run: the
state before each filtered row, then the final state (empty when the filter
leaves nothing). -/
def simTrace (portfolio : Portfolio) (data : List AssetRow)
    (range : DateRange) (startingCapital : ℚ) (freq : RebalanceFreq) :
    List SimState :=
  match filteredRows data range with
  | row0 :: rest =>
      simStates portfolio.assets freq false
        ⟨initShares portfolio.assets row0 startingCapital,
          startingCapital, row0.date⟩ (row0 :: rest)
  | [] => []

theorem simStates_getD_zero (assets : List PortfolioAsset)
    (freq : RebalanceFreq) (canReb : Bool) (st : SimState)
    (rows : List AssetRow) :
    (simStates assets freq canReb st rows).getD 0 default = st := by
  cases rows <;> rfl

theorem simStates_getD_succ (assets : List PortfolioAsset)
    (freq : RebalanceFreq) (rows : List AssetRow) :
    ∀ (canReb : Bool) (st : SimState) (i : Nat), i < rows.length →
      (simStates assets freq canReb st rows).getD (i + 1) default =
        (simStep assets freq (if i = 0 then canReb else true)
          ((simStates assets freq canReb st rows).getD i default)
          (rows.getD i default)).1 := by
  induction rows with
  | nil => intro _ _ i hi; cases hi
  | cons r rs ih =>
      intro canReb st i hi
      cases i with
      | zero =>
          rw [show simStates assets freq canReb st (r :: rs)
              = st :: simStates assets freq true
                  (simStep assets freq canReb st r).1 rs from rfl,
            List.getD_cons_succ, List.getD_cons_zero, simStates_getD_zero]
          simp
      | succ i =>
          simp only [simStates, List.getD_cons_succ]
          rw [ih true _ i (Nat.lt_of_succ_lt_succ hi)]
          simp

theorem simGo_getD (assets : List PortfolioAsset) (freq : RebalanceFreq)
    (rows : List AssetRow) :
    ∀ (canReb : Bool) (st : SimState) (i : Nat), i < rows.length →
      (simGo assets freq canReb st rows).getD i default =
        (simStep assets freq (if i = 0 then canReb else true)
          ((simStates assets freq canReb st rows).getD i default)
          (rows.getD i default)).2 := by
  induction rows with
  | nil => intro _ _ i hi; cases hi
  | cons r rs ih =>
      intro canReb st i hi
      cases i with
      | zero =>
          rw [show simGo assets freq canReb st (r :: rs)
              = (simStep assets freq canReb st r).2
                :: simGo assets freq true
                  (simStep assets freq canReb st r).1 rs from rfl,
            List.getD_cons_zero, simStates_getD_zero]
          simp
      | succ i =>
          simp only [simGo, simStates, List.getD_cons_succ]
          rw [ih true _ i (Nat.lt_of_succ_lt_succ hi)]
          simp

theorem simGo_length (assets : List PortfolioAsset) (freq : RebalanceFreq)
    (rows : List AssetRow) :
    ∀ (canReb : Bool) (st : SimState),
      (simGo assets freq canReb st rows).length = rows.length := by
  induction rows with
  | nil => intro _ _; rfl
  | cons r rs ih => intro canReb st; simp [simGo, ih]

/-- Extracting the loop from a successful `calculatePortfolioReturns` run. -/
theorem calcPR_some_eq (portfolio : Portfolio) (data : List AssetRow)
    (range : DateRange) (cap : ℚ) (freq : RebalanceFreq)
    (curve : List ReturnPoint)
    (h : calculatePortfolioReturns portfolio data range cap freq
      = some curve) :
    curve = simGo portfolio.assets freq false
      ⟨initShares portfolio.assets
          ((filteredRows data range).getD 0 default) cap,
        cap, ((filteredRows data range).getD 0 default).date⟩
      (filteredRows data range) := by
  unfold calculatePortfolioReturns at h
  split at h
  · exact absurd h (by simp)
  · split at h
    · exact absurd h (by simp)
    · revert h
      rcases hfl : filteredRows data range with _ | ⟨r0, _ | ⟨r1, rows⟩⟩
      · intro h; exact absurd h (by simp)
      · intro h; exact absurd h (by simp)
      · intro h
        simp only [Option.some_inj] at h
        simp [← h, hfl]

/-! ## Claim C5 — rebalancing trigger and share reset -/

/-- The claim's per-leg description of a rebalance: a leg with a positive
FX-adjusted current price gets `portfolioValue·weight/100 / adjustedPrice`;
a leg whose price is unavailable or non-positive keeps its shares. -/
def legRebalanceValue (row : AssetRow) (pv : ℚ) (old : ℚ)
    (a : PortfolioAsset) : ℚ :=
  match row.get a.asset with
  | some p =>
      if 0 < p * getFxRate row a.fx then
        pv * (a.weight / 100) / (p * getFxRate row a.fx)
      else old
  | none => old

theorem rebStep_apply_ne (row : AssetRow) (pv : ℚ) (s : String → ℚ)
    (a : PortfolioAsset) (t : String) (ht : t ≠ a.asset) :
    rebStep row pv s a t = s t := by
  unfold rebStep
  cases hp : row.get a.asset with
  | none => rfl
  | some p =>
      dsimp only
      split
      · exact Function.update_noteq ht _ _
      · rfl

theorem rebStep_apply_self (row : AssetRow) (pv : ℚ) (s : String → ℚ)
    (a : PortfolioAsset) :
    rebStep row pv s a a.asset = legRebalanceValue row pv (s a.asset) a := by
  unfold rebStep legRebalanceValue
  cases hp : row.get a.asset <;>
    simp [hp, ite_apply, Function.update_same]

theorem rebStep_foldl_not_mem (row : AssetRow) (pv : ℚ)
    (l : List PortfolioAsset) (t : String) (h : t ∉ l.map (·.asset)) :
    ∀ s : String → ℚ, l.foldl (rebStep row pv) s t = s t := by
  induction l with
  | nil => intro s; rfl
  | cons b rest ih =>
      intro s
      simp only [List.map_cons, List.mem_cons, not_or] at h
      rw [List.foldl_cons, ih h.2, rebStep_apply_ne _ _ _ _ _ h.1]

theorem rebalanceShares_spec (row : AssetRow) (pv : ℚ)
    (l : List PortfolioAsset) (hnd : (l.map (·.asset)).Nodup) :
    ∀ (sh : String → ℚ), ∀ a ∈ l,
      rebalanceShares l row pv sh a.asset =
        legRebalanceValue row pv (sh a.asset) a := by
  unfold rebalanceShares
  induction l with
  | nil => intro sh a ha; cases ha
  | cons b rest ih =>
      intro sh a ha
      simp only [List.map_cons, List.nodup_cons] at hnd
      rw [List.foldl_cons]
      rcases List.mem_cons.mp ha with rfl | hmem
      · rw [rebStep_foldl_not_mem row pv rest a.asset hnd.1,
          rebStep_apply_self]
      · have hne : a.asset ≠ b.asset := by
          intro he
          exact hnd.1 (he ▸ List.mem_map_of_mem (·.asset) hmem)
        rw [ih hnd.2 _ a hmem, rebStep_apply_ne _ _ _ _ _ hne]

theorem simStep_no_reb_fst (assets : List PortfolioAsset)
    (freq : RebalanceFreq) (st : SimState) (row : AssetRow) :
    (simStep assets freq false st row).1.shares = st.shares ∧
    (simStep assets freq false st row).1.lastRebalance = st.lastRebalance := by
  simp [simStep]

theorem simStep_reb_fst (assets : List PortfolioAsset)
    (freq : RebalanceFreq) (st : SimState) (row : AssetRow)
    (hc : shouldRebalanceAt freq (monthDiff row.date st.lastRebalance) = true)
    (hpv : 0 < portfolioValue assets row st.shares) :
    (simStep assets freq true st row).1.shares =
      rebalanceShares assets row (portfolioValue assets row st.shares)
        st.shares ∧
    (simStep assets freq true st row).1.lastRebalance = row.date := by
  simp [simStep, hc, hpv]

theorem simStep_skip_fst (assets : List PortfolioAsset)
    (freq : RebalanceFreq) (st : SimState) (row : AssetRow)
    (hc : ¬(shouldRebalanceAt freq (monthDiff row.date st.lastRebalance)
        = true ∧ 0 < portfolioValue assets row st.shares)) :
    (simStep assets freq true st row).1.shares = st.shares ∧
    (simStep assets freq true st row).1.lastRebalance = st.lastRebalance := by
  rw [Classical.not_and_iff_or_not_not] at hc
  rcases hc with hc | hc <;> simp [simStep, hc]

/-- C5 (amended): in a `calculatePortfolioReturns` run, rebalancing happens
exactly when the whole-month difference between the current date and
`lastRebalanceDate` reaches the frequency's threshold (≥1 monthly, ≥3
quarterly, ≥12 yearly) *and the portfolio value on that row is positive*;
rebalancing never occurs at the first data point; on a rebalance, every leg
with a positive adjusted current price gets its shares reset to
`portfolioValue·weight/100 / adjustedPrice` (other legs keep their shares)
and `lastRebalanceDate` becomes the current date; otherwise both the shares
and `lastRebalanceDate` are left unchanged. -/
theorem rebalance_trigger_spec (portfolio : Portfolio)
    (data : List AssetRow) (range : DateRange) (cap : ℚ)
    (freq : RebalanceFreq)
    (hnd : (portfolio.assets.map (·.asset)).Nodup)
    (i : Nat) (hi : i < (filteredRows data range).length)
    (st st' : SimState) (row : AssetRow)
    (hst : st = (simTrace portfolio data range cap freq).getD i default)
    (hst' : st' =
      (simTrace portfolio data range cap freq).getD (i + 1) default)
    (hrow : row = (filteredRows data range).getD i default) :
    (i = 0 → st'.shares = st.shares ∧
      st'.lastRebalance = st.lastRebalance) ∧
    (0 < i →
      shouldRebalanceAt freq (monthDiff row.date st.lastRebalance) = true →
      0 < portfolioValue portfolio.assets row st.shares →
      st'.lastRebalance = row.date ∧
      ∀ a ∈ portfolio.assets,
        st'.shares a.asset =
          legRebalanceValue row
            (portfolioValue portfolio.assets row st.shares)
            (st.shares a.asset) a) ∧
    (0 < i →
      ¬(shouldRebalanceAt freq (monthDiff row.date st.lastRebalance) = true ∧
        0 < portfolioValue portfolio.assets row st.shares) →
      st'.lastRebalance = st.lastRebalance ∧ st'.shares = st.shares) := by
  rcases hfl : filteredRows data range with _ | ⟨r0, rest⟩
  · rw [hfl] at hi; cases hi
  · have htr : simTrace portfolio data range cap freq =
        simStates portfolio.assets freq false
          ⟨initShares portfolio.assets r0 cap, cap, r0.date⟩ (r0 :: rest) := by
      unfold simTrace; rw [hfl]
    rw [hfl] at hi
    rw [htr] at hst hst'
    rw [hfl] at hrow
    rw [simStates_getD_succ _ _ _ _ _ i hi, ← hst, ← hrow] at hst'
    rcases Nat.eq_zero_or_pos i with rfl | hpos
    · rw [if_pos rfl] at hst'
      subst hst'
      exact ⟨fun _ => simStep_no_reb_fst _ _ _ _,
        fun h => absurd h (lt_irrefl 0),
        fun h => absurd h (lt_irrefl 0)⟩
    · rw [if_neg (Nat.pos_iff_ne_zero.mp hpos)] at hst'
      subst hst'
      refine ⟨fun h0 => absurd h0 (Nat.pos_iff_ne_zero.mp hpos),
        fun _ hc hpv => ?_, fun _ hc => ?_⟩
      · obtain ⟨hsh, hlast⟩ := simStep_reb_fst portfolio.assets freq st row
          hc hpv
        refine ⟨hlast, fun a ha => ?_⟩
        rw [hsh]
        exact rebalanceShares_spec row _ portfolio.assets hnd st.shares a ha
      · exact (simStep_skip_fst portfolio.assets freq st row hc).symm.imp
          id id |>.symm |> fun h => ⟨h.2, h.1⟩

/-- Price table for the C5 counterexample: the February row carries no price
for `A`, so the portfolio value there is 0. -/
def gapData : List AssetRow :=
  [⟨dJan, [("A", 100)]⟩, ⟨dFeb, []⟩, ⟨dMar, [("A", 100)]⟩]

/-- Single-leg 100 % portfolio on ticker `A`. -/
def soloA : Portfolio := ⟨[⟨"A", 100, ""⟩]⟩

/-- C5 counterexample: at the second row the whole-month difference is 1
(≥ 1 with monthly frequency) and it is not the first data point, so the claim
says a rebalance occurs and `lastRebalanceDate` becomes 2020-02-28; but the
portfolio value is 0 there (no price for the only leg), the code skips the
rebalance, and `lastRebalanceDate` stays 2020-01-31. -/
theorem C5_counterexample :
    shouldRebalanceAt .monthly (monthDiff dFeb dJan) = true ∧
    (filteredRows gapData wideRange).getD 1 default = ⟨dFeb, []⟩ ∧
    ((simTrace soloA gapData wideRange 1000 .monthly).getD 1
      default).lastRebalance = dJan ∧
    portfolioValue soloA.assets ⟨dFeb, []⟩
      ((simTrace soloA gapData wideRange 1000 .monthly).getD 1
        default).shares = 0 ∧
    ((simTrace soloA gapData wideRange 1000 .monthly).getD 2
      default).lastRebalance = dJan ∧
    dJan ≠ dFeb ∧
    (calculatePortfolioReturns soloA gapData wideRange 1000
      .monthly).isSome = true := by
  refine ⟨by decide, by decide, ?_, ?_, ?_, by decide, ?_⟩
  all_goals
    norm_num [simTrace, simStates, simStep, simGo, filteredRows, gapData,
      soloA, wideRange, dJan, dFeb, dMar, Date.leb, monthDiff,
      shouldRebalanceAt, portfolioValue, initShares, initStep,
      rebalanceShares, rebStep, getFxRate, AssetRow.get, List.lookup,
      Function.update, calculatePortfolioReturns]
  all_goals decide

/-- C5 witness: on the all-valid `demoData` table with a single-leg
portfolio, the second row (one whole month after the first) does trigger a
rebalance: `lastRebalanceDate` becomes 2020-02-28. -/
theorem rebalance_trigger_spec_witness :
    ((simTrace soloA demoData wideRange 1000 .monthly).getD 2
      default).lastRebalance = dFeb := by
  have h := (rebalance_trigger_spec soloA demoData wideRange 1000 .monthly
    (by decide) 1 (by decide) _ _ _ rfl rfl rfl).2.1
  have hres := h (by decide)
    (by norm_num [simTrace, simStates, simStep, filteredRows, demoData,
      soloA, wideRange, dJan, dFeb, dMar, Date.leb, monthDiff,
      shouldRebalanceAt, portfolioValue, initShares, initStep, getFxRate,
      AssetRow.get, List.lookup, Function.update])
    (by norm_num [simTrace, simStates, simStep, filteredRows, demoData,
      soloA, wideRange, dJan, dFeb, dMar, Date.leb, monthDiff,
      shouldRebalanceAt, portfolioValue, initShares, initStep, getFxRate,
      AssetRow.get, List.lookup, Function.update])
  exact hres.1.trans (by decide)

/-! ## Claim C6 — drawdown invariants -/

/-- The running maximum before the `i`-th point: the maximum of
`startingCapital` and of the first `i` equity values. -/
def runMaxUpTo (cap : ℚ) (curve : List ReturnPoint) (i : Nat) : ℚ :=
  ((curve.take i).map (·.value)).foldl max cap

theorem le_foldl_max (l : List ℚ) : ∀ c : ℚ, c ≤ l.foldl max c := by
  induction l with
  | nil => intro c; exact le_refl c
  | cons x t ih =>
      intro c
      exact le_trans (le_max_left c x) (ih (max c x))

theorem runMaxUpTo_mono (cap : ℚ) (curve : List ReturnPoint) :
    ∀ j i : Nat, j ≤ i → runMaxUpTo cap curve j ≤ runMaxUpTo cap curve i := by
  intro j i hji
  obtain ⟨k, rfl⟩ := Nat.exists_eq_add_of_le hji
  unfold runMaxUpTo
  rw [List.take_add, List.map_append, List.foldl_append]
  exact le_foldl_max _ _

theorem ite_lt_max (a b : ℚ) : (if a < b then b else a) = max a b := by
  rcases lt_or_ge a b with h | h
  · rw [if_pos h, max_eq_right (le_of_lt h)]
  · rw [if_neg (not_lt.mpr h), max_eq_left h]

theorem simStep_snd_value (assets : List PortfolioAsset)
    (freq : RebalanceFreq) (canReb : Bool) (st : SimState) (row : AssetRow) :
    (simStep assets freq canReb st row).2.value =
      portfolioValue assets row st.shares := by
  simp [simStep]

theorem simStep_snd_drawdown (assets : List PortfolioAsset)
    (freq : RebalanceFreq) (canReb : Bool) (st : SimState) (row : AssetRow) :
    (simStep assets freq canReb st row).2.drawdown =
      (portfolioValue assets row st.shares -
          max st.runningMax (portfolioValue assets row st.shares)) /
        max st.runningMax (portfolioValue assets row st.shares) * 100 := by
  simp [simStep, ite_lt_max]

theorem simStep_fst_runningMax (assets : List PortfolioAsset)
    (freq : RebalanceFreq) (canReb : Bool) (st : SimState) (row : AssetRow) :
    (simStep assets freq canReb st row).1.runningMax =
      max st.runningMax (portfolioValue assets row st.shares) := by
  simp [simStep, ite_lt_max]

/-- A successful run decomposes into a non-empty filtered table, the state
trace and the loop output. -/
theorem calcPR_some_parts (portfolio : Portfolio) (data : List AssetRow)
    (range : DateRange) (cap : ℚ) (freq : RebalanceFreq)
    (curve : List ReturnPoint)
    (h : calculatePortfolioReturns portfolio data range cap freq
      = some curve) :
    ∃ r0 rest, filteredRows data range = r0 :: rest ∧
      simTrace portfolio data range cap freq =
        simStates portfolio.assets freq false
          ⟨initShares portfolio.assets r0 cap, cap, r0.date⟩ (r0 :: rest) ∧
      curve = simGo portfolio.assets freq false
        ⟨initShares portfolio.assets r0 cap, cap, r0.date⟩ (r0 :: rest) := by
  have hcurve := calcPR_some_eq portfolio data range cap freq curve h
  have hne : filteredRows data range ≠ [] := by
    intro h0
    have hnone : calculatePortfolioReturns portfolio data range cap freq
        = none :=
      (calcPR_none_iff _ _ _ _ _).mpr (Or.inr (Or.inr (by rw [h0]; decide)))
    exact absurd (hnone.symm.trans h) (by simp)
  obtain ⟨r0, rest, hfl⟩ : ∃ r0 rest,
      filteredRows data range = r0 :: rest := by
    cases hx : filteredRows data range with
    | nil => exact absurd hx hne
    | cons a l => exact ⟨a, l, rfl⟩
  refine ⟨r0, rest, hfl, by unfold simTrace; rw [hfl], ?_⟩
  rw [hcurve, hfl]
  rfl

/-- In a successful run the trace's running maximum before point `i` is the
maximum of the starting capital and all earlier equity values. -/
theorem simTrace_runningMax (portfolio : Portfolio) (data : List AssetRow)
    (range : DateRange) (cap : ℚ) (freq : RebalanceFreq)
    (curve : List ReturnPoint)
    (h : calculatePortfolioReturns portfolio data range cap freq
      = some curve) :
    ∀ i ≤ (filteredRows data range).length,
      ((simTrace portfolio data range cap freq).getD i default).runningMax =
        runMaxUpTo cap curve i := by
  obtain ⟨r0, rest, hfl, htr, hcurve⟩ :=
    calcPR_some_parts portfolio data range cap freq curve h
  intro i hi
  rw [hfl] at hi
  induction i with
  | zero =>
      rw [htr, simStates_getD_zero]
      simp [runMaxUpTo]
  | succ i ih =>
      have hi2 : i < (r0 :: rest).length := Nat.lt_of_succ_le hi
      rw [htr, simStates_getD_succ _ _ _ _ _ i hi2, ← htr,
        simStep_fst_runningMax, ih (Nat.le_of_lt hi2)]
      have hval : (curve.getD i default).value =
          portfolioValue portfolio.assets ((r0 :: rest).getD i default)
            (((simTrace portfolio data range cap freq).getD i
              default).shares) := by
        rw [hcurve, simGo_getD _ _ _ _ _ i hi2, simStep_snd_value, htr]
      have hilen : i < curve.length := by
        rw [hcurve, simGo_length]; exact hi2
      have htake : curve.take (i + 1) =
          curve.take i ++ [curve.getD i default] := by
        rw [List.take_succ]
        congr 1
        rw [List.getElem?_eq_getElem hilen, List.getD_eq_getElem _ _ hilen]
        rfl
      unfold runMaxUpTo
      rw [htake, List.map_append, List.foldl_append]
      simp only [List.map_cons, List.map_nil, List.foldl_cons,
        List.foldl_nil]
      rw [hval, htr]

/-- C6: every point of a `calculatePortfolioReturns` equity curve (run with
the data model's positive starting capital) has
`drawdown = (value − runningMax)/runningMax × 100 ≤ 0`, where the running
maximum starts at the starting capital, never decreases, and includes the
current point; the drawdown is exactly 0 at every point whose value is a new
running maximum. -/
theorem drawdown_spec (portfolio : Portfolio) (data : List AssetRow)
    (range : DateRange) (cap : ℚ) (freq : RebalanceFreq)
    (curve : List ReturnPoint) (hcap : 0 < cap)
    (h : calculatePortfolioReturns portfolio data range cap freq
      = some curve) :
    ∀ i, i < curve.length →
      (curve.getD i default).drawdown =
        ((curve.getD i default).value - runMaxUpTo cap curve (i + 1)) /
          runMaxUpTo cap curve (i + 1) * 100 ∧
      (curve.getD i default).drawdown ≤ 0 ∧
      (runMaxUpTo cap curve i < (curve.getD i default).value →
        (curve.getD i default).drawdown = 0) ∧
      ∀ j, j ≤ i → runMaxUpTo cap curve j ≤ runMaxUpTo cap curve i := by
  obtain ⟨r0, rest, hfl, htr, hcurve⟩ :=
    calcPR_some_parts portfolio data range cap freq curve h
  intro i hi
  have hifl : i < (r0 :: rest).length := by
    rw [hcurve, simGo_length] at hi; exact hi
  have hmaxi := simTrace_runningMax portfolio data range cap freq curve h i
    (by rw [hfl]; exact Nat.le_of_lt hifl)
  have hval : (curve.getD i default).value =
      portfolioValue portfolio.assets ((r0 :: rest).getD i default)
        (((simTrace portfolio data range cap freq).getD i
          default).shares) := by
    rw [hcurve, simGo_getD _ _ _ _ _ i hifl, simStep_snd_value, htr]
  have hdd : (curve.getD i default).drawdown =
      ((curve.getD i default).value -
          max (runMaxUpTo cap curve i) (curve.getD i default).value) /
        max (runMaxUpTo cap curve i) (curve.getD i default).value * 100 := by
    have hdd0 : (curve.getD i default).drawdown =
        (portfolioValue portfolio.assets ((r0 :: rest).getD i default)
            (((simTrace portfolio data range cap freq).getD i
              default).shares) -
          max (((simTrace portfolio data range cap freq).getD i
              default).runningMax)
            (portfolioValue portfolio.assets ((r0 :: rest).getD i default)
              (((simTrace portfolio data range cap freq).getD i
                default).shares))) /
          max (((simTrace portfolio data range cap freq).getD i
              default).runningMax)
            (portfolioValue portfolio.assets ((r0 :: rest).getD i default)
              (((simTrace portfolio data range cap freq).getD i
                default).shares)) * 100 := by
      rw [hcurve, simGo_getD _ _ _ _ _ i hifl, simStep_snd_drawdown, htr]
    rw [hdd0, ← hval, hmaxi]
  have hsuccmax : runMaxUpTo cap curve (i + 1) =
      max (runMaxUpTo cap curve i) (curve.getD i default).value := by
    unfold runMaxUpTo
    rw [show curve.take (i + 1) = curve.take i ++ [curve.getD i default] by
      rw [List.take_succ]
      congr 1
      rw [List.getElem?_eq_getElem hi, List.getD_eq_getElem _ _ hi]
      rfl]
    rw [List.map_append, List.foldl_append]
    simp
  have hpos : 0 < max (runMaxUpTo cap curve i) (curve.getD i default).value :=
    lt_of_lt_of_le hcap
      (le_trans (le_foldl_max _ _) (le_max_left _ _))
  refine ⟨by rw [hdd, hsuccmax], ?_, ?_,
    fun j hj => runMaxUpTo_mono _ _ j i hj⟩
  · rw [hdd]
    have hnum : (curve.getD i default).value -
        max (runMaxUpTo cap curve i) (curve.getD i default).value ≤ 0 :=
      sub_nonpos.mpr (le_max_right _ _)
    have := div_nonpos_of_nonpos_of_nonneg hnum (le_of_lt hpos)
    nlinarith
  · intro hnew
    rw [hdd, max_eq_right (le_of_lt hnew)]
    rw [sub_self, zero_div, zero_mul]

/-- The equity curve of the all-valid single-leg demo run, used to witness
the drawdown theorem at a concrete input. -/
def demoCurve : List ReturnPoint :=
  [⟨dJan, 1000, 0⟩, ⟨dFeb, 1100, 0⟩, ⟨dMar, 1210, 0⟩]

theorem calcPR_demo :
    calculatePortfolioReturns soloA demoData wideRange 1000 .monthly =
      some demoCurve := by
  norm_num [calculatePortfolioReturns, filteredRows, demoData, wideRange,
    dJan, dFeb, dMar, Date.leb, soloA, demoCurve, simGo, simStep, initShares,
    initStep, portfolioValue, rebalanceShares, rebStep, getFxRate, monthDiff,
    shouldRebalanceAt, AssetRow.get, List.lookup, List.filter,
    Function.update]
  simp

/-- C6 witness: on the demo run, the third point is a new running maximum and
its drawdown is exactly 0 (and ≤ 0). -/
theorem drawdown_spec_witness :
    (demoCurve.getD 2 default).drawdown ≤ 0 ∧
    (demoCurve.getD 2 default).drawdown = 0 := by
  have h := drawdown_spec soloA demoData wideRange 1000 .monthly demoCurve
    (by norm_num) calcPR_demo 2 (by decide)
  exact ⟨h.2.1, h.2.2.1 (by norm_num [runMaxUpTo, demoCurve, max_def,
    dJan, dFeb, dMar])⟩

/-! ## Withdrawal overlay (`calculateWithdrawalReturns`, source lines
737-771, and `getWithdrawalDetails`, source lines 781-846) -/

/-- Mutable state of the `calculateWithdrawalReturns` loop. -/
structure WState where
  value : ℚ
  lastWithdrawal : Date
  yearNumber : Nat
deriving DecidableEq, Repr

instance : Inhabited WState := ⟨⟨0, ⟨0, 0, 0⟩, 0⟩⟩

/-- One iteration of the `calculateWithdrawalReturns` loop (source lines
747-768): scale by the underlying curve's ratio, then withdraw when 12 whole
months have passed since the last withdrawal. -/
def wStep (pct infl : ℚ) (prev cur : ReturnPoint) (st : WState) : WState :=
  if 12 ≤ monthDiff cur.date st.lastWithdrawal then
    ⟨st.value * (cur.value / prev.value) *
        (1 - pct * (1 + infl / 100) ^ st.yearNumber / 100),
      cur.date, st.yearNumber + 1⟩
  else ⟨st.value * (cur.value / prev.value), st.lastWithdrawal, st.yearNumber⟩

theorem wStep_pos (pct infl : ℚ) (prev cur : ReturnPoint) (st : WState)
    (hc : 12 ≤ monthDiff cur.date st.lastWithdrawal) :
    wStep pct infl prev cur st =
      ⟨st.value * (cur.value / prev.value) *
          (1 - pct * (1 + infl / 100) ^ st.yearNumber / 100),
        cur.date, st.yearNumber + 1⟩ := by
  unfold wStep
  rw [if_pos hc]

theorem wStep_neg (pct infl : ℚ) (prev cur : ReturnPoint) (st : WState)
    (hc : ¬ 12 ≤ monthDiff cur.date st.lastWithdrawal) :
    wStep pct infl prev cur st =
      ⟨st.value * (cur.value / prev.value), st.lastWithdrawal,
        st.yearNumber⟩ := by
  unfold wStep
  rw [if_neg hc]

/-- The `calculateWithdrawalReturns` loop: one output pair per point after
the first. -/
def wGo (pct infl : ℚ) :
    WState → ReturnPoint → List ReturnPoint → List (Date × ℚ)
  | _, _, [] => []
  | st, prev, cur :: rest =>
      let st' := wStep pct infl prev cur st
      (cur.date, st'.value) :: wGo pct infl st' cur rest

/-- `calculateWithdrawalReturns` (source lines 737-771): `[]` models the
source's early return on fewer than 2 points. -/
def calculateWithdrawalReturns (returns : List ReturnPoint)
    (pct infl : ℚ) : List (Date × ℚ) :=
  match returns with
  | r0 :: r1 :: rest =>
      (r0.date, r0.value) :: wGo pct infl ⟨r0.value, r0.date, 0⟩ r0 (r1 :: rest)
  | _ => []

/-- States of the `calculateWithdrawalReturns` loop (state before each
point after the first, then the final state). -/
def wStates (pct infl : ℚ) :
    WState → ReturnPoint → List ReturnPoint → List WState
  | st, _, [] => [st]
  | st, prev, cur :: rest =>
      st :: wStates pct infl (wStep pct infl prev cur st) cur rest

theorem wStates_getD_zero (pct infl : ℚ) (st : WState) (prev : ReturnPoint)
    (rest : List ReturnPoint) :
    (wStates pct infl st prev rest).getD 0 default = st := by
  cases rest <;> rfl

theorem wStates_getD_succ (pct infl : ℚ) (rest : List ReturnPoint) :
    ∀ (st : WState) (prev : ReturnPoint) (i : Nat), i < rest.length →
      (wStates pct infl st prev rest).getD (i + 1) default =
        wStep pct infl ((prev :: rest).getD i default)
          (rest.getD i default)
          ((wStates pct infl st prev rest).getD i default) := by
  induction rest with
  | nil => intro _ _ i hi; cases hi
  | cons cur rs ih =>
      intro st prev i hi
      cases i with
      | zero =>
          rw [show wStates pct infl st prev (cur :: rs)
              = st :: wStates pct infl (wStep pct infl prev cur st) cur rs
              from rfl,
            List.getD_cons_succ, List.getD_cons_zero, wStates_getD_zero]
          rfl
      | succ i =>
          simp only [wStates, List.getD_cons_succ]
          rw [ih _ _ i (Nat.lt_of_succ_lt_succ hi)]

theorem wGo_getD (pct infl : ℚ) (rest : List ReturnPoint) :
    ∀ (st : WState) (prev : ReturnPoint) (i : Nat), i < rest.length →
      (wGo pct infl st prev rest).getD i default =
        ((rest.getD i default).date,
          (wStep pct infl ((prev :: rest).getD i default)
            (rest.getD i default)
            ((wStates pct infl st prev rest).getD i default)).value) := by
  induction rest with
  | nil => intro _ _ i hi; cases hi
  | cons cur rs ih =>
      intro st prev i hi
      cases i with
      | zero =>
          rw [show wGo pct infl st prev (cur :: rs)
              = (cur.date, (wStep pct infl prev cur st).value)
                :: wGo pct infl (wStep pct infl prev cur st) cur rs
              from rfl,
            List.getD_cons_zero, wStates_getD_zero]
          rfl
      | succ i =>
          simp only [wGo, wStates, List.getD_cons_succ]
          rw [ih _ _ i (Nat.lt_of_succ_lt_succ hi)]

/-! ## Claim C7 — withdrawal trigger and compounding rate -/

/-- C7: in a `calculateWithdrawalReturns` run over `r0 :: rest`, a withdrawal
is applied at step `i` — observable as the `yearIndex` increment — exactly
when 12 whole calendar months have elapsed since the last withdrawal (the
whole-month difference rule); on a withdrawal the overlay value becomes
`value·(curve ratio)·(1 − effectiveRate/100)` with
`effectiveRate = annualRatePercent·(1+annualInflationPercent/100)^yearIndex`
(`yearIndex` starting at 0 and incrementing by 1 after each withdrawal) and
the last-withdrawal date becomes the current date; otherwise the value is
only scaled by the curve's ratio and the date and `yearIndex` are unchanged.
The final conjunct places the stepped value in the function's output. -/
theorem withdrawal_trigger_spec (pct infl : ℚ) (r0 : ReturnPoint)
    (rest : List ReturnPoint) (i : Nat) (hi : i < rest.length)
    (st st' : WState) (prev cur : ReturnPoint)
    (hst : st =
      (wStates pct infl ⟨r0.value, r0.date, 0⟩ r0 rest).getD i default)
    (hst' : st' =
      (wStates pct infl ⟨r0.value, r0.date, 0⟩ r0 rest).getD (i + 1) default)
    (hprev : prev = (r0 :: rest).getD i default)
    (hcur : cur = rest.getD i default) :
    (st'.yearNumber = st.yearNumber + 1 ↔
      12 ≤ monthDiff cur.date st.lastWithdrawal) ∧
    (12 ≤ monthDiff cur.date st.lastWithdrawal →
      st'.value = st.value * (cur.value / prev.value) *
        (1 - pct * (1 + infl / 100) ^ st.yearNumber / 100) ∧
      st'.lastWithdrawal = cur.date) ∧
    (¬ 12 ≤ monthDiff cur.date st.lastWithdrawal →
      st'.value = st.value * (cur.value / prev.value) ∧
      st'.lastWithdrawal = st.lastWithdrawal ∧
      st'.yearNumber = st.yearNumber) ∧
    (calculateWithdrawalReturns (r0 :: rest) pct infl).getD (i + 1) default
      = (cur.date, st'.value) := by
  rcases rest with _ | ⟨r1, rs⟩
  · cases hi
  · rw [wStates_getD_succ pct infl _ _ _ i hi, ← hst, ← hprev, ← hcur]
      at hst'
    have hout : (calculateWithdrawalReturns (r0 :: r1 :: rs) pct infl).getD
        (i + 1) default = (cur.date, st'.value) := by
      rw [show calculateWithdrawalReturns (r0 :: r1 :: rs) pct infl
          = (r0.date, r0.value)
            :: wGo pct infl ⟨r0.value, r0.date, 0⟩ r0 (r1 :: rs) from rfl,
        List.getD_cons_succ, wGo_getD pct infl _ _ _ i hi,
        ← hst, ← hprev, ← hcur, ← hst', hcur]
    refine ⟨?_, ?_, ?_, hout⟩
    · constructor
      · intro hy
        by_contra hc
        rw [hst', wStep_neg _ _ _ _ _ hc] at hy
        simp only [] at hy
        omega
      · intro hc
        rw [hst', wStep_pos _ _ _ _ _ hc]
    · intro hc
      rw [hst', wStep_pos _ _ _ _ _ hc]
      exact ⟨rfl, rfl⟩
    · intro hc
      rw [hst', wStep_neg _ _ _ _ _ hc]
      exact ⟨rfl, rfl, rfl⟩

/-- 2021-01-31, one year after `dJan`. -/
def dJan21 : Date := ⟨2021, 0, 31⟩

/-- C7 witness: on a two-point curve spanning exactly 12 whole months with a
10 % rate and 0 % inflation, the withdrawal fires at the second point:
`yearIndex` becomes 1, the overlay value becomes
`100·(110/100)·(1 − 10/100) = 99`, and the output's second pair is
`(2021-01-31, 99)`. -/
theorem withdrawal_trigger_spec_witness :
    ((wStates 10 0 ⟨(100 : ℚ), dJan, 0⟩ ⟨dJan, 100, 0⟩
        [⟨dJan21, 110, 0⟩]).getD 1 default).yearNumber = 1 ∧
    ((wStates 10 0 ⟨(100 : ℚ), dJan, 0⟩ ⟨dJan, 100, 0⟩
        [⟨dJan21, 110, 0⟩]).getD 1 default).value = 99 ∧
    (calculateWithdrawalReturns [⟨dJan, 100, 0⟩, ⟨dJan21, 110, 0⟩] 10
        0).getD 1 default = (dJan21, 99) := by
  have h := withdrawal_trigger_spec 10 0 ⟨dJan, 100, 0⟩ [⟨dJan21, 110, 0⟩]
    0 (by decide) _ _ _ _ rfl rfl rfl rfl
  have hc : (12 : Int) ≤ monthDiff dJan21
      ((wStates 10 0 ⟨(100 : ℚ), dJan, 0⟩ ⟨dJan, 100, 0⟩
        [⟨dJan21, 110, 0⟩]).getD 0 default).lastWithdrawal := by
    rw [wStates_getD_zero]
    decide
  obtain ⟨hyear, hval, -, hout⟩ := h
  have hst0 := wStates_getD_zero 10 0 (⟨(100 : ℚ), dJan, 0⟩ : WState)
    ⟨dJan, 100, 0⟩ [⟨dJan21, 110, 0⟩]
  refine ⟨?_, ?_, ?_⟩
  · rw [hyear.mpr hc, hst0]
  · rw [(hval hc).1, hst0]
    norm_num
  · rw [hout, (hval hc).1, hst0]
    norm_num

/-! ## Claim C8 — zero-rate overlay reproduces the curve -/

/-- A curve containing a zero value, on which the zero-rate overlay does not
reproduce the input: in exact arithmetic the third overlay value is 0 (the
source's floating point produces `NaN` via `7/0 = Infinity` and `0·∞`),
while the curve's third value is 7. -/
def zeroCurve : List ReturnPoint := [⟨dJan, 5, 0⟩, ⟨dFeb, 0, 0⟩, ⟨dMar, 7, 0⟩]

/-- C8 counterexample: with `annualRatePercent = 0` (and inflation 0), the
overlay of `zeroCurve` is `[5, 0, 0]`, which differs from the curve's own
values `[5, 0, 7]` at the third point. -/
theorem C8_counterexample :
    calculateWithdrawalReturns zeroCurve 0 0 =
      [(dJan, 5), (dFeb, 0), (dMar, 0)] ∧
    zeroCurve.map (fun p => (p.date, p.value)) =
      [(dJan, 5), (dFeb, 0), (dMar, 7)] ∧
    calculateWithdrawalReturns zeroCurve 0 0 ≠
      zeroCurve.map (fun p => (p.date, p.value)) := by
  refine ⟨?_, by norm_num [zeroCurve], ?_⟩
  · norm_num [calculateWithdrawalReturns, zeroCurve, wGo, wStep, monthDiff,
      dJan, dFeb, dMar]
  · intro h
    have h2 := congrArg (fun l => (l.getD 2 default).2) h
    norm_num [calculateWithdrawalReturns, zeroCurve, wGo, wStep, monthDiff,
      dJan, dFeb, dMar] at h2

theorem wGo_zero_rate (infl : ℚ) :
    ∀ (rest : List ReturnPoint) (prev : ReturnPoint) (st : WState),
      st.value = prev.value → prev.value ≠ 0 →
      (∀ p ∈ rest, p.value ≠ 0) →
      wGo 0 infl st prev rest = rest.map (fun p => (p.date, p.value)) := by
  intro rest
  induction rest with
  | nil => intro _ _ _ _ _; rfl
  | cons cur rs ih =>
      intro prev st hval hprev hrest
      have hcur : cur.value ≠ 0 := hrest cur (List.mem_cons_self _ _)
      have hv : (wStep 0 infl prev cur st).value = cur.value := by
        rcases le_or_lt 12 (monthDiff cur.date st.lastWithdrawal) with
          hc | hc
        · rw [wStep_pos _ _ _ _ _ hc]
          show st.value * (cur.value / prev.value) *
            (1 - 0 * (1 + infl / 100) ^ st.yearNumber / 100) = cur.value
          rw [hval, zero_mul, zero_div, sub_zero, mul_one,
            mul_comm prev.value, div_mul_cancel₀ _ hprev]
        · rw [wStep_neg _ _ _ _ _ (not_le.mpr hc)]
          show st.value * (cur.value / prev.value) = cur.value
          rw [hval, mul_comm prev.value, div_mul_cancel₀ _ hprev]
      rw [show wGo 0 infl st prev (cur :: rs)
          = (cur.date, (wStep 0 infl prev cur st).value)
            :: wGo 0 infl (wStep 0 infl prev cur st) cur rs from rfl,
        hv, List.map_cons,
        ih cur (wStep 0 infl prev cur st) hv hcur
          (fun p hp => hrest p (List.mem_cons_of_mem _ hp))]

/-- C8 (amended): for every equity curve with at least 2 points *all of whose
values are non-zero*, the overlay with `annualRatePercent = 0` equals the
input curve's dates and values exactly (in the exact-arithmetic model; the
source's floating point agrees up to rounding).  A zero value breaks the
ratio chain (division by zero), hence the added hypothesis. -/
theorem withdrawal_zero_rate_spec (returns : List ReturnPoint) (infl : ℚ)
    (h2 : 2 ≤ returns.length) (hnz : ∀ p ∈ returns, p.value ≠ 0) :
    calculateWithdrawalReturns returns 0 infl =
      returns.map (fun p => (p.date, p.value)) := by
  rcases returns with _ | ⟨r0, _ | ⟨r1, rest⟩⟩
  · cases h2
  · exact absurd h2 (by simp)
  · rw [show calculateWithdrawalReturns (r0 :: r1 :: rest) 0 infl
        = (r0.date, r0.value)
          :: wGo 0 infl ⟨r0.value, r0.date, 0⟩ r0 (r1 :: rest) from rfl,
      List.map_cons,
      wGo_zero_rate infl (r1 :: rest) r0 ⟨r0.value, r0.date, 0⟩ rfl
        (hnz r0 (List.mem_cons_self _ _))
        (fun p hp => hnz p (List.mem_cons_of_mem _ hp))]

/-- C8 witness: on the all-positive `demoCurve` the zero-rate overlay equals
the curve itself. -/
theorem withdrawal_zero_rate_spec_witness :
    calculateWithdrawalReturns demoCurve 0 5 =
      demoCurve.map (fun p => (p.date, p.value)) :=
  withdrawal_zero_rate_spec demoCurve 5 (by decide)
    (by intro p hp; fin_cases hp <;> norm_num [demoCurve])

/-! ## Claim C10 — `getWithdrawalDetails` agrees with
`calculateWithdrawalReturns` -/

/-- One row of the withdrawal detail table (source lines 784-792). -/
structure WDetail where
  year : Nat
  startingValue : ℚ
  returnPct : ℚ
  preWithdrawalValue : ℚ
  effectiveRate : ℚ
  withdrawalAmount : ℚ
  endValue : ℚ
deriving DecidableEq, Repr

/-- Mutable state of the `getWithdrawalDetails` loop (source lines
794-798). -/
structure DState where
  portfolioValue : ℚ
  lastWithdrawal : Date
  yearNumber : Nat
  yearStartValue : ℚ
  yearStartOriginal : ℚ
deriving DecidableEq, Repr

/-- One iteration of the `getWithdrawalDetails` loop (source lines 800-843):
scale by the curve's ratio; on the 12-whole-month trigger emit a detail
record and apply the withdrawal. -/
def dStep (pct infl : ℚ) (prev cur : ReturnPoint) (st : DState) :
    DState × Option WDetail :=
  if 12 ≤ monthDiff cur.date st.lastWithdrawal then
    (⟨st.portfolioValue * (cur.value / prev.value) *
          (1 - pct * (1 + infl / 100) ^ st.yearNumber / 100),
        cur.date, st.yearNumber + 1,
        st.portfolioValue * (cur.value / prev.value) *
          (1 - pct * (1 + infl / 100) ^ st.yearNumber / 100),
        cur.value⟩,
      some ⟨st.yearNumber + 1, st.yearStartValue,
        (cur.value - st.yearStartOriginal) / st.yearStartOriginal * 100,
        st.portfolioValue * (cur.value / prev.value),
        pct * (1 + infl / 100) ^ st.yearNumber,
        st.portfolioValue * (cur.value / prev.value) *
          (pct * (1 + infl / 100) ^ st.yearNumber / 100),
        st.portfolioValue * (cur.value / prev.value) *
          (1 - pct * (1 + infl / 100) ^ st.yearNumber / 100)⟩)
  else
    (⟨st.portfolioValue * (cur.value / prev.value), st.lastWithdrawal,
        st.yearNumber, st.yearStartValue, st.yearStartOriginal⟩, none)

/-- The `getWithdrawalDetails` loop: collect the emitted detail records. -/
def dGo (pct infl : ℚ) :
    DState → ReturnPoint → List ReturnPoint → List WDetail
  | _, _, [] => []
  | st, prev, cur :: rest =>
      match dStep pct infl prev cur st with
      | (st', some d) => d :: dGo pct infl st' cur rest
      | (st', none) => dGo pct infl st' cur rest

/-- `getWithdrawalDetails` (source lines 781-846). -/
def getWithdrawalDetails (returns : List ReturnPoint) (pct infl : ℚ) :
    List WDetail :=
  match returns with
  | r0 :: r1 :: rest =>
      dGo pct infl ⟨r0.value, r0.date, 0, r0.value, r0.value⟩ r0 (r1 :: rest)
  | _ => []

/-- The withdrawal events of the `calculateWithdrawalReturns` state machine:
for each step whose 12-whole-month trigger fires, the effective rate, the
overlay value immediately before the withdrawal, and the overlay value
immediately after it (the value `wStep` carries on). -/
def wEvents (pct infl : ℚ) :
    WState → ReturnPoint → List ReturnPoint → List (ℚ × ℚ × ℚ)
  | _, _, [] => []
  | st, prev, cur :: rest =>
      if 12 ≤ monthDiff cur.date st.lastWithdrawal then
        (pct * (1 + infl / 100) ^ st.yearNumber,
          st.value * (cur.value / prev.value),
          (wStep pct infl prev cur st).value)
          :: wEvents pct infl (wStep pct infl prev cur st) cur rest
      else wEvents pct infl (wStep pct infl prev cur st) cur rest

/-- The withdrawal events of a `calculateWithdrawalReturns` run. -/
def withdrawalEvents (returns : List ReturnPoint) (pct infl : ℚ) :
    List (ℚ × ℚ × ℚ) :=
  match returns with
  | r0 :: r1 :: rest =>
      wEvents pct infl ⟨r0.value, r0.date, 0⟩ r0 (r1 :: rest)
  | _ => []

theorem dGo_wEvents (pct infl : ℚ) :
    ∀ (rest : List ReturnPoint) (prev : ReturnPoint) (dst : DState)
      (wst : WState),
      wst.value = dst.portfolioValue →
      wst.lastWithdrawal = dst.lastWithdrawal →
      wst.yearNumber = dst.yearNumber →
      (dGo pct infl dst prev rest).map
          (fun d => (d.effectiveRate, d.preWithdrawalValue, d.endValue)) =
        wEvents pct infl wst prev rest := by
  intro rest
  induction rest with
  | nil => intro _ _ _ _ _ _; rfl
  | cons cur rs ih =>
      intro prev dst wst hv hl hy
      rcases le_or_lt 12 (monthDiff cur.date dst.lastWithdrawal) with
        hc | hc
      · have hcw : 12 ≤ monthDiff cur.date wst.lastWithdrawal := by
          rw [hl]; exact hc
        rw [show dGo pct infl dst prev (cur :: rs)
            = match dStep pct infl prev cur dst with
              | (st', some d) => d :: dGo pct infl st' cur rs
              | (st', none) => dGo pct infl st' cur rs from rfl]
        unfold dStep
        rw [if_pos hc]
        simp only [List.map_cons]
        rw [show wEvents pct infl wst prev (cur :: rs)
            = if 12 ≤ monthDiff cur.date wst.lastWithdrawal then
                (pct * (1 + infl / 100) ^ wst.yearNumber,
                  wst.value * (cur.value / prev.value),
                  (wStep pct infl prev cur wst).value)
                  :: wEvents pct infl (wStep pct infl prev cur wst) cur rs
              else wEvents pct infl (wStep pct infl prev cur wst) cur rs
            from rfl,
          if_pos hcw, wStep_pos _ _ _ _ _ hcw]
        rw [hv, hy]
        refine congrArg₂ _ rfl ?_
        apply ih <;> rfl
      · have hcw : ¬ 12 ≤ monthDiff cur.date wst.lastWithdrawal := by
          rw [hl]; exact not_le.mpr hc
        rw [show dGo pct infl dst prev (cur :: rs)
            = match dStep pct infl prev cur dst with
              | (st', some d) => d :: dGo pct infl st' cur rs
              | (st', none) => dGo pct infl st' cur rs from rfl]
        unfold dStep
        rw [if_neg (not_le.mpr hc)]
        rw [show wEvents pct infl wst prev (cur :: rs)
            = if 12 ≤ monthDiff cur.date wst.lastWithdrawal then
                (pct * (1 + infl / 100) ^ wst.yearNumber,
                  wst.value * (cur.value / prev.value),
                  (wStep pct infl prev cur wst).value)
                  :: wEvents pct infl (wStep pct infl prev cur wst) cur rs
              else wEvents pct infl (wStep pct infl prev cur wst) cur rs
            from rfl,
          if_neg hcw, wStep_neg _ _ _ _ _ hcw]
        apply ih
        · simp [hv]
        · simp [hl]
        · simp [hy]

theorem dGo_records (pct infl : ℚ) :
    ∀ (rest : List ReturnPoint) (prev : ReturnPoint) (dst : DState),
      ∀ d ∈ dGo pct infl dst prev rest,
        d.endValue = d.preWithdrawalValue * (1 - d.effectiveRate / 100) ∧
        d.withdrawalAmount =
          d.preWithdrawalValue * (d.effectiveRate / 100) := by
  intro rest
  induction rest with
  | nil => intro _ _ d hd; cases hd
  | cons cur rs ih =>
      intro prev dst d hd
      rw [show dGo pct infl dst prev (cur :: rs)
          = match dStep pct infl prev cur dst with
            | (st', some de) => de :: dGo pct infl st' cur rs
            | (st', none) => dGo pct infl st' cur rs from rfl] at hd
      unfold dStep at hd
      rcases le_or_lt 12 (monthDiff cur.date dst.lastWithdrawal) with hc | hc
      · rw [if_pos hc] at hd
        rcases List.mem_cons.mp hd with he | hmem
        · rw [he]
          exact ⟨rfl, rfl⟩
        · exact ih cur _ d hmem
      · rw [if_neg (not_le.mpr hc)] at hd
        exact ih cur _ d hd

/-- C10: `getWithdrawalDetails` agrees with the `calculateWithdrawalReturns`
state machine — the k-th detail record's `effectiveRate`,
`preWithdrawalValue` and `endValue` are exactly the rate applied at the k-th
withdrawal of the overlay computation and the overlay value immediately
before and after it (`withdrawalEvents` reads those off the same `wStep`
chain that produces `calculateWithdrawalReturns`); and within each record
`endValue = preWithdrawalValue·(1 − effectiveRate/100)` and
`withdrawalAmount = preWithdrawalValue·effectiveRate/100`. -/
theorem withdrawal_details_refine (returns : List ReturnPoint)
    (pct infl : ℚ) :
    (getWithdrawalDetails returns pct infl).map
        (fun d => (d.effectiveRate, d.preWithdrawalValue, d.endValue)) =
      withdrawalEvents returns pct infl ∧
    ∀ d ∈ getWithdrawalDetails returns pct infl,
      d.endValue = d.preWithdrawalValue * (1 - d.effectiveRate / 100) ∧
      d.withdrawalAmount = d.preWithdrawalValue * (d.effectiveRate / 100) := by
  rcases returns with _ | ⟨r0, _ | ⟨r1, rest⟩⟩
  · exact ⟨rfl, fun d hd => by cases hd⟩
  · exact ⟨rfl, fun d hd => by cases hd⟩
  · constructor
    · exact dGo_wEvents pct infl (r1 :: rest) r0
        ⟨r0.value, r0.date, 0, r0.value, r0.value⟩
        ⟨r0.value, r0.date, 0⟩ rfl rfl rfl
    · exact dGo_records pct infl (r1 :: rest) r0 _

/-! ## Claim C9 — trend-following success rate -/

/-- A trading signal: `BUY` is the INVESTED state, `SELL` the OUT_OF_MARKET
state. -/
inductive Signal where
  | BUY
  | SELL
deriving DecidableEq, Repr

/-- A signal change event (source `SignalChange`). -/
structure SignalChange where
  date : Date
  newSignal : Signal
  price : ℚ
  value : ℚ
deriving DecidableEq, Repr

/-- The success-rate record (source line 2172). -/
structure SuccessRate where
  rate : ℚ
  successful : Nat
  total : Nat
deriving DecidableEq, Repr

/-- Body of the `calculateSuccessRate` walk (source lines 2179-2191); the
state is `(lastSellPrice, successful, total)`. -/
def srStep (st : Option ℚ × Nat × Nat) (c : SignalChange) :
    Option ℚ × Nat × Nat :=
  match c.newSignal with
  | .SELL => (some c.price, st.2.1, st.2.2)
  | .BUY =>
      match st.1 with
      | some lastSell =>
          (none, st.2.1 + (if c.price < lastSell then 1 else 0), st.2.2 + 1)
      | none => st

/-- `calculateSuccessRate` (source lines 2172-2200). -/
def calculateSuccessRate (signalChanges : List SignalChange) :
    Option SuccessRate :=
  if signalChanges.length < 2 then none
  else
    let res := signalChanges.foldl srStep (none, 0, 0)
    if res.2.2 = 0 then none
    else some ⟨(res.2.1 : ℚ) / res.2.2 * 100, res.2.1, res.2.2⟩

/-- The claim's counting rule, written directly from its words: one round
trip per OUT_OF_MARKET (SELL) event that is followed later in the log by an
INVESTED (BUY) event; the trip is successful exactly when the re-entry
price — the first later BUY's price — is strictly lower than the exit
(SELL) price.  Returns `(successes, total round trips)`. -/
def roundTripsSpec : List SignalChange → Nat × Nat
  | [] => (0, 0)
  | c :: rest =>
      if c.newSignal = Signal.SELL then
        match rest.find? (fun b => b.newSignal == Signal.BUY) with
        | some b =>
            ((roundTripsSpec rest).1 + (if b.price < c.price then 1 else 0),
              (roundTripsSpec rest).2 + 1)
        | none => roundTripsSpec rest
      else roundTripsSpec rest

theorem roundTripsSpec_cons_buy (c : SignalChange)
    (rest : List SignalChange) (hb : c.newSignal = Signal.BUY) :
    roundTripsSpec (c :: rest) = roundTripsSpec rest := by
  conv_lhs => rw [roundTripsSpec]
  rw [if_neg (by rw [hb]; intro h; cases h)]

theorem roundTripsSpec_cons_sell (c : SignalChange)
    (rest : List SignalChange) (hc : c.newSignal = Signal.SELL) :
    roundTripsSpec (c :: rest) =
      match rest.find? (fun b => b.newSignal == Signal.BUY) with
      | some b =>
          ((roundTripsSpec rest).1 + (if b.price < c.price then 1 else 0),
            (roundTripsSpec rest).2 + 1)
      | none => roundTripsSpec rest := by
  conv_lhs => rw [roundTripsSpec]
  rw [if_pos hc]

/-- Successes consumed from a pending SELL by the head of the remaining
log. -/
def srConsumeS (p : Option ℚ) (l : List SignalChange) : Nat :=
  match p, l.head? with
  | some pr, some b => if b.price < pr then 1 else 0
  | _, _ => 0

/-- Round trips consumed from a pending SELL by the head of the remaining
log. -/
def srConsumeT (p : Option ℚ) (l : List SignalChange) : Nat :=
  match p, l.head? with
  | some _, some _ => 1
  | _, _ => 0

theorem srFold_proj :
    ∀ (l : List SignalChange),
      l.Chain' (fun a b => a.newSignal ≠ b.newSignal) →
      ∀ (p : Option ℚ) (s t : Nat),
        (p.isSome = true → ∀ b ∈ l.head?, b.newSignal = Signal.BUY) →
        (l.foldl srStep (p, s, t)).2 =
          (s + srConsumeS p l + (roundTripsSpec l).1,
            t + srConsumeT p l + (roundTripsSpec l).2) := by
  intro l
  induction l with
  | nil =>
      intro _ p s t _
      simp [roundTripsSpec, srConsumeS, srConsumeT]
  | cons c rest ih =>
      intro halt p s t hp
      have halt' : rest.Chain' (fun a b => a.newSignal ≠ b.newSignal) :=
        halt.tail
      rcases hc : c.newSignal with _ | _
      · -- c is a BUY
        rcases p with _ | pr
        · -- no pending sell: the BUY is skipped
          rw [List.foldl_cons, show srStep (none, s, t) c = (none, s, t) by
            unfold srStep; rw [hc],
            ih halt' none s t (by simp), roundTripsSpec_cons_buy c rest hc]
          simp [srConsumeS, srConsumeT]
        · -- pending sell: a round trip completes
          rw [List.foldl_cons, show srStep (some pr, s, t) c =
              (none, s + (if c.price < pr then 1 else 0), t + 1) by
            unfold srStep; rw [hc],
            ih halt' none _ _ (by simp), roundTripsSpec_cons_buy c rest hc]
          simp only [srConsumeS, srConsumeT, List.head?_cons]
          rw [Prod.ext_iff]
          constructor <;> (try split) <;> omega
      · -- c is a SELL
        have hpnone : p = none := by
          rcases p with _ | pr
          · rfl
          · have := hp rfl c (by simp)
            rw [hc] at this
            cases this
        subst hpnone
        rw [List.foldl_cons, show srStep (none, s, t) c =
            (some c.price, s, t) by unfold srStep; rw [hc]]
        rcases rest with _ | ⟨b0, rs⟩
        · simp [srConsumeS, srConsumeT, roundTripsSpec, hc]
        · have hb0 : b0.newSignal = Signal.BUY := by
            have hne : c.newSignal ≠ b0.newSignal :=
              (List.chain'_cons.mp halt).1
            rcases hb : b0.newSignal with _ | _
            · rfl
            · rw [hc, hb] at hne
              exact absurd rfl hne
          rw [ih halt' (some c.price) s t
            (fun _ b hb => by
              simp only [List.head?_cons, Option.mem_def,
                Option.some_inj] at hb
              subst hb
              exact hb0),
            roundTripsSpec_cons_sell c (b0 :: rs) hc,
            List.find?_cons_of_pos _ (by simp [hb0])]
          simp only [srConsumeS, srConsumeT, List.head?_cons]
          rw [Prod.ext_iff]
          constructor <;> (try split) <;> omega

/-- A SignalChange log of length ≤ 1 has no round trips. -/
theorem roundTripsSpec_short (l : List SignalChange) (h : l.length ≤ 1) :
    (roundTripsSpec l).2 = 0 := by
  rcases l with _ | ⟨c, _ | ⟨d, rs⟩⟩
  · rfl
  · unfold roundTripsSpec
    split <;> rfl
  · simp at h

/-- C9 (amended): for every SignalChangeEvent log in which consecutive
events carry different signals (the data-model invariant: an event is
emitted only when the state flips), `calculateSuccessRate` counts one round
trip per OUT_OF_MARKET (SELL) event that is followed later in the log by an
INVESTED (BUY) event, counts the trip as successful exactly when the
re-entry (first later BUY) price is strictly lower than the exit (SELL)
price, returns `rate = successes/total × 100` (a percentage, not the bare
ratio), and returns null exactly when there are zero round trips. -/
theorem success_rate_spec (log : List SignalChange)
    (halt : log.Chain' (fun a b => a.newSignal ≠ b.newSignal)) :
    (calculateSuccessRate log = none ↔ (roundTripsSpec log).2 = 0) ∧
    ∀ r, calculateSuccessRate log = some r →
      r.successful = (roundTripsSpec log).1 ∧
      r.total = (roundTripsSpec log).2 ∧
      r.rate = (r.successful : ℚ) / r.total * 100 := by
  have hfold := srFold_proj log halt none 0 0 (by simp)
  have hS : (log.foldl srStep (none, 0, 0)).2.1 = (roundTripsSpec log).1 := by
    rw [hfold]; simp [srConsumeS]
  have hT : (log.foldl srStep (none, 0, 0)).2.2 = (roundTripsSpec log).2 := by
    rw [hfold]; simp [srConsumeT]
  unfold calculateSuccessRate
  by_cases hlen : log.length < 2
  · rw [if_pos hlen]
    refine ⟨iff_of_true rfl (roundTripsSpec_short log (by omega)), ?_⟩
    intro r hr
    cases hr
  · rw [if_neg hlen]
    by_cases hT0 : (log.foldl srStep (none, 0, 0)).2.2 = 0
    · rw [if_pos hT0]
      exact ⟨iff_of_true rfl (hT ▸ hT0), fun r hr => by cases hr⟩
    · rw [if_neg hT0]
      refine ⟨iff_of_false (by simp) (by rw [← hT]; exact hT0), ?_⟩
      intro r hr
      rw [Option.some_inj] at hr
      refine ⟨?_, ?_, ?_⟩
      · rw [← hr, ← hS]
      · rw [← hr, ← hT]
      · rw [← hr]

/-- Two-event log: exit at 100, re-enter at 90 — one successful round
trip. -/
def pairLog : List SignalChange :=
  [⟨dJan, .SELL, 100, 1⟩, ⟨dFeb, .BUY, 90, 1⟩]

/-- C9 counterexample: on a one-round-trip log (SELL at 100, BUY at 90) the
returned rate is 100, a percentage, not `successes/total = 1/1 = 1` as the
claim states. -/
theorem C9_counterexample :
    calculateSuccessRate pairLog = some ⟨100, 1, 1⟩ ∧
    (100 : ℚ) ≠ (1 : ℚ) / (1 : ℚ) := by
  constructor
  · norm_num [calculateSuccessRate, pairLog, srStep, List.foldl]
  · norm_num

/-- Four-event alternating log with two round trips, one successful. -/
def quadLog : List SignalChange :=
  [⟨dJan, .SELL, 100, 1⟩, ⟨dFeb, .BUY, 90, 1⟩,
    ⟨dMar, .SELL, 80, 1⟩, ⟨dJan21, .BUY, 85, 1⟩]

/-- C9 witness: on the four-event alternating log there are two round trips,
so the success rate is not null. -/
theorem success_rate_spec_witness :
    (roundTripsSpec quadLog).2 = 2 ∧
    calculateSuccessRate quadLog ≠ none := by
  have h := (success_rate_spec quadLog
    (by refine (List.chain'_cons.mpr ⟨?_, List.chain'_cons.mpr ⟨?_,
      List.chain'_cons.mpr ⟨?_, List.chain'_singleton _⟩⟩⟩) <;>
      (intro h; cases h))).1
  refine ⟨by decide, fun hn => ?_⟩
  rw [h] at hn
  exact absurd hn (by decide)

/-! ## `calculateMonthlyReturns` (source lines 912-995) -/

/-- Per-year grouping record (source lines 916-922): last value seen in each
month, first truthy value of the year, last value of the year.  The
`yearStart`/`yearEnd` truthiness checks of the source (`!yearStart`) are
modelled by the explicit 0/`none` cases. -/
structure YearData where
  monthly : Nat → Option ℚ
  yearStart : Option ℚ
  yearEnd : Option ℚ

instance : Inhabited YearData := ⟨⟨fun _ => none, none, none⟩⟩

/-- The grouping record before any point of the year is seen. -/
def emptyYearData : YearData := ⟨fun _ => none, none, none⟩

/-- Folding one point into its year's record (source lines 924-944). -/
def updateYearData (yd : YearData) (m : Nat) (v : ℚ) : YearData :=
  { monthly := Function.update yd.monthly m (some v)
    yearStart :=
      match yd.yearStart with
      | none => some v
      | some s => if s = 0 then some v else some s
    yearEnd := some v }

/-- One step of the grouping fold. -/
def groupStep (acc : Nat → Option YearData) (p : ReturnPoint) :
    Nat → Option YearData :=
  Function.update acc p.date.y
    (some (updateYearData ((acc p.date.y).getD emptyYearData)
      p.date.m p.value))

/-- The grouping fold over all points (source lines 924-944). -/
def groupFold (returns : List ReturnPoint) : Nat → Option YearData :=
  returns.foldl groupStep (fun _ => none)

/-- The source's backward search (lines 963-971) for the nearest populated
month strictly before `month`. -/
def backClose (yd : YearData) (month : Nat) : Option ℚ :=
  ((List.range month).reverse.find?
    (fun m => (yd.monthly m).isSome)).bind yd.monthly

/-- The start value of one month (source lines 962-971): the backward
search's close when it finds one, else the threaded `prevMonthEnd`. -/
def monthStartValue (yd : YearData) (st1 : Option ℚ) (month : Nat) :
    Option ℚ :=
  match backClose yd month with
  | some c => some c
  | none => st1

/-- One iteration of the month loop (source lines 957-979); the state is
`(prevMonthEnd, monthly returns so far)`. -/
def monthStep (yd : YearData) (st : Option ℚ × (Nat → Option ℚ))
    (month : Nat) : Option ℚ × (Nat → Option ℚ) :=
  match yd.monthly month with
  | none => st
  | some endValue =>
      (some endValue,
        match monthStartValue yd st.1 month with
        | some s =>
            if 0 < s then
              Function.update st.2 month
                (some ((endValue - s) / s * 100))
            else st.2
        | none => st.2)

theorem monthStep_none (yd : YearData) (st : Option ℚ × (Nat → Option ℚ))
    (month : Nat) (h : yd.monthly month = none) :
    monthStep yd st month = st := by
  unfold monthStep
  rw [h]

theorem monthStep_some_pos (yd : YearData)
    (st : Option ℚ × (Nat → Option ℚ)) (month : Nat) (c s : ℚ)
    (h : yd.monthly month = some c)
    (hs : monthStartValue yd st.1 month = some s) (hspos : 0 < s) :
    monthStep yd st month =
      (some c, Function.update st.2 month (some ((c - s) / s * 100))) := by
  unfold monthStep
  rw [h]
  dsimp only
  rw [hs]
  dsimp only
  rw [if_pos hspos]

/-- The monthly returns of one year (source lines 953-979): fold the month
loop over months 0–11, starting from the previous year's end (or `none` for
the first year). -/
def monthlyRetOf (yd : YearData) (prevYearEnd : Option ℚ) :
    Nat → Option ℚ :=
  ((List.range 12).foldl (monthStep yd) (prevYearEnd, fun _ => none)).2

/-- The full-year return (source lines 981-986): guarded by the source's
truthiness tests (`fyStartValue && fyStartValue > 0 && yearData.yearEnd`). -/
def fyOf (yd : YearData) (fyStart : Option ℚ) : ℚ :=
  match fyStart, yd.yearEnd with
  | some s, some e => if 0 < s ∧ e ≠ 0 then (e - s) / s * 100 else 0
  | _, _ => 0

/-- One row of the monthly-returns table: a year, its 12 optional monthly
returns, and its full-year return. -/
structure YearEntry where
  year : Nat
  monthly : Nat → Option ℚ
  fy : ℚ

instance : Inhabited YearEntry := ⟨⟨0, fun _ => none, 0⟩⟩

/-- The sorted distinct years of the table (source line 947; JavaScript's
`Object.keys` on integer-like keys followed by `sort()` is ascending numeric
order for the four-digit years of real data). -/
def yearsOf (returns : List ReturnPoint) : List Nat :=
  ((returns.map fun p => p.date.y).toFinset).sort (· ≤ ·)

/-- The table row of one year given the previous year in the table (source
lines 950-992). -/
def mkEntry (data : Nat → Option YearData) (prev : Option Nat) (y : Nat) :
    YearEntry :=
  ⟨y,
    monthlyRetOf ((data y).getD emptyYearData)
      (match prev with
        | some py => ((data py).getD emptyYearData).yearEnd
        | none => none),
    fyOf ((data y).getD emptyYearData)
      (match prev with
        | some py => ((data py).getD emptyYearData).yearEnd
        | none => ((data y).getD emptyYearData).yearStart)⟩

/-- The year loop (source lines 950-992), threading the previous year. -/
def entriesGo (data : Nat → Option YearData) :
    Option Nat → List Nat → List YearEntry
  | _, [] => []
  | prev, y :: ys => mkEntry data prev y :: entriesGo data (some y) ys

/-- `calculateMonthlyReturns` (source lines 912-995). -/
def calculateMonthlyReturns (returns : List ReturnPoint) : List YearEntry :=
  entriesGo (groupFold returns) none (yearsOf returns)

/-! ## Claim C3 — full-year return compounds the monthly returns -/

/-- A one-year curve whose first month holds two points: the January close
(110) differs from the year's first value (100). -/
def firstYearCurve : List ReturnPoint :=
  [⟨⟨2020, 0, 10⟩, 100, 0⟩, ⟨⟨2020, 0, 20⟩, 110, 0⟩, ⟨⟨2020, 1, 15⟩, 121, 0⟩]

/-- C3 counterexample: in the (first) year 2020 of `firstYearCurve`, the
full-year return is 21 % (computed against the year's *first value* 100),
while the only non-null monthly return is February's 10 %, so
`1 + FY/100 = 1.21 ≠ 1.1 = Π(1+mᵢ/100)` — and the two sides differ by far
more than floating-point tolerance. -/
theorem C3_counterexample :
    ((calculateMonthlyReturns firstYearCurve).getD 0 default).fy = 21 ∧
    ((List.range 12).map fun m =>
      match ((calculateMonthlyReturns firstYearCurve).getD 0
          default).monthly m with
      | some r => 1 + r / 100
      | none => 1).prod = 11 / 10 ∧
    1 + ((calculateMonthlyReturns firstYearCurve).getD 0 default).fy / 100
      ≠ 11 / 10 := by
  have hentry : (calculateMonthlyReturns firstYearCurve).getD 0 default =
      mkEntry (groupFold firstYearCurve) none 2020 := by
    have hyears : yearsOf firstYearCurve = [2020] := by
      show ((firstYearCurve.map fun p => p.date.y).toFinset).sort (· ≤ ·)
        = [2020]
      rw [show (firstYearCurve.map fun p => p.date.y) = [2020, 2020, 2020]
        from rfl]
      simp
    rw [show calculateMonthlyReturns firstYearCurve =
        entriesGo (groupFold firstYearCurve) none (yearsOf firstYearCurve)
      from rfl, hyears]
    rfl
  rw [hentry]
  have hfy : (mkEntry (groupFold firstYearCurve) none 2020).fy = 21 := by
    norm_num [mkEntry, fyOf, groupFold, groupStep, updateYearData,
      emptyYearData, firstYearCurve, Function.update]
  refine ⟨hfy, ?_, by rw [hfy]; norm_num⟩
  norm_num [mkEntry, monthlyRetOf, monthStep, monthStartValue, backClose,
    groupFold, groupStep, updateYearData, emptyYearData, firstYearCurve,
    Function.update, List.range_succ]

/-- The last element of a filter survives strengthening the filter, provided
it satisfies the stronger predicate. -/
theorem getLast?_filter_strengthen {α : Type} (q1 q2 : α → Bool)
    (himp : ∀ a, q2 a = true → q1 a = true) (l : List α) :
    ∀ p : α, (l.filter q1).getLast? = some p → q2 p = true →
      (l.filter q2).getLast? = some p := by
  induction l using List.reverseRecOn with
  | nil => intro p h1 _; cases h1
  | append_singleton l a ih =>
      intro p h1 h2
      rw [List.filter_append] at h1 ⊢
      cases hq1 : q1 a with
      | false =>
          have hq2 : q2 a = false := by
            cases hq2 : q2 a
            · rfl
            · rw [himp a hq2] at hq1; cases hq1
          rw [show List.filter q1 [a] = [] by simp [hq1],
            List.append_nil] at h1
          rw [show List.filter q2 [a] = [] by simp [hq2], List.append_nil]
          exact ih p h1 h2
      | true =>
          rw [show List.filter q1 [a] = [a] by simp [hq1],
            List.getLast?_concat] at h1
          have hpa : p = a := (Option.some_inj.mp h1).symm
          subst hpa
          rw [show List.filter q2 [p] = [p] by simp [h2],
            List.getLast?_concat]

/-- In a pairwise-related list, every element is the last one or relates to
it. -/
theorem pairwise_upper {α : Type} (R : α → α → Prop) :
    ∀ (l : List α) (b : α), l.Pairwise R → l.getLast? = some b →
      ∀ a ∈ l, a = b ∨ R a b := by
  intro l
  induction l with
  | nil => intro b _ h; cases h
  | cons x t ih =>
      intro b hp hl a ha
      rcases t with _ | ⟨y, t'⟩
      · have hb : x = b := by
          simpa using hl
        rcases List.mem_cons.mp ha with rfl | h0
        · exact Or.inl hb
        · cases h0
      · have hl' : (y :: t').getLast? = some b := by
          rwa [List.getLast?_cons_cons] at hl

        rcases List.mem_cons.mp ha with rfl | hmem
        · have hb : b ∈ y :: t' := List.mem_of_getLast?_eq_some hl'
          exact Or.inr ((List.pairwise_cons.mp hp).1 b hb)
        · exact ih b (List.pairwise_cons.mp hp).2 hl' a hmem

/-- `find?` on a reversed range finds the largest index satisfying the
predicate. -/
theorem find?_reverse_range (P : Nat → Bool) :
    ∀ (n m : Nat), m < n → P m = true →
      (∀ j, m < j → j < n → P j = false) →
      (List.range n).reverse.find? P = some m := by
  intro n
  induction n with
  | zero => intro m hm; cases hm
  | succ n ih =>
      intro m hm hP habove
      rw [List.range_succ, List.reverse_append, List.reverse_singleton,
        List.singleton_append]
      rcases Nat.lt_succ_iff_lt_or_eq.mp hm with h | rfl
      · rw [List.find?_cons_of_neg _
          (by rw [habove n h (Nat.lt_succ_self n)]; intro hx; cases hx)]
        exact ih m h hP fun j hj1 hj2 => habove j hj1 (Nat.lt_succ_of_lt hj2)
      · rw [List.find?_cons_of_pos _ hP]

/-- The factor a monthly-return cell contributes to the compounded
product. -/
def gOpt (o : Option ℚ) : ℚ :=
  match o with
  | some r => 1 + r / 100
  | none => 1

/-- The compounded product of the non-null monthly returns (null months
contribute the factor 1). -/
def prodOf (res : Nat → Option ℚ) : ℚ :=
  ((List.range 12).map fun m => gOpt (res m)).prod

theorem prod_map_update (L : List Nat) :
    ∀ (_ : L.Nodup) (k : Nat), k ∈ L → ∀ (res : Nat → Option ℚ) (r : ℚ),
      res k = none →
      (L.map fun m => gOpt (Function.update res k (some r) m)).prod =
        (L.map fun m => gOpt (res m)).prod * (1 + r / 100) := by
  induction L with
  | nil => intro _ k hk; cases hk
  | cons a t ih =>
      intro hnd k hk res r h0
      rw [List.map_cons, List.map_cons, List.prod_cons, List.prod_cons]
      rcases List.mem_cons.mp hk with rfl | hmem
      · have hknt : k ∉ t := (List.nodup_cons.mp hnd).1
        rw [Function.update_same,
          show (t.map fun m => gOpt (Function.update res k (some r) m))
              = t.map fun m => gOpt (res m) from
            List.map_congr_left fun m hm => by
              rw [Function.update_noteq fun he => hknt (by
                rw [← he]; exact hm)],
          h0]
        show gOpt (some r) * _ = gOpt none * _ * (1 + r / 100)
        unfold gOpt
        ring
      · have hak : a ≠ k := by
          rintro rfl
          exact (List.nodup_cons.mp hnd).1 hmem
        rw [Function.update_noteq hak,
          ih (List.nodup_cons.mp hnd).2 k hmem res r h0]
        ring

/-- The year-restricted slice of the curve. -/
def yrFilter (returns : List ReturnPoint) (y : Nat) : List ReturnPoint :=
  returns.filter fun p => p.date.y == y

/-- The (year, month)-restricted slice of the curve. -/
def ymFilter (returns : List ReturnPoint) (y m : Nat) : List ReturnPoint :=
  returns.filter fun p => p.date.y == y && p.date.m == m

/-- Characterization of the grouping fold: a year's record exists exactly
when the year has points, its `yearEnd` is the year's last value, and each
month cell is the last value in that month. -/
theorem updateYearData_monthly (yd : YearData) (m : Nat) (v : ℚ) :
    (updateYearData yd m v).monthly = Function.update yd.monthly m (some v) :=
  rfl

theorem updateYearData_yearEnd (yd : YearData) (m : Nat) (v : ℚ) :
    (updateYearData yd m v).yearEnd = some v :=
  rfl

theorem groupFold_spec (returns : List ReturnPoint) (y : Nat) :
    (groupFold returns y = none ↔ yrFilter returns y = []) ∧
    ∀ yd, groupFold returns y = some yd →
      yd.yearEnd = (yrFilter returns y).getLast?.map (·.value) ∧
      ∀ m, yd.monthly m = (ymFilter returns y m).getLast?.map (·.value) := by
  induction returns using List.reverseRecOn with
  | nil =>
      exact ⟨by simp [groupFold, yrFilter], fun yd h => by cases h⟩
  | append_singleton l p ih =>
      have hfold : ∀ z, groupFold (l ++ [p]) z
          = groupStep (groupFold l) p z := by
        intro z
        unfold groupFold
        rw [List.foldl_append]
        rfl
      by_cases hy : p.date.y = y
      · subst hy
        have hyr : yrFilter (l ++ [p]) p.date.y
            = yrFilter l p.date.y ++ [p] := by
          unfold yrFilter
          rw [List.filter_append]
          simp
        constructor
        · refine iff_of_false ?_ ?_
          · rw [hfold]
            unfold groupStep
            rw [Function.update_same]
            intro h
            cases h
          · rw [hyr]
            intro h
            simp at h
        · intro yd hyd
          rw [hfold] at hyd
          unfold groupStep at hyd
          rw [Function.update_same] at hyd
          have hyd' : yd = updateYearData
              ((groupFold l p.date.y).getD emptyYearData) p.date.m
              p.value := (Option.some_inj.mp hyd).symm
          subst hyd'
          constructor
          · rw [hyr, List.getLast?_concat, updateYearData_yearEnd]
            rfl
          · intro m
            rw [updateYearData_monthly]
            by_cases hmm : m = p.date.m
            · rw [hmm]
              have hym : ymFilter (l ++ [p]) p.date.y p.date.m
                  = ymFilter l p.date.y p.date.m ++ [p] := by
                unfold ymFilter
                rw [List.filter_append]
                simp
              rw [hym, List.getLast?_concat, Function.update_same]
              rfl
            · have hym : ymFilter (l ++ [p]) p.date.y m
                  = ymFilter l p.date.y m := by
                unfold ymFilter
                rw [List.filter_append]
                simp [show (p.date.m == m) = false from
                  beq_eq_false_iff_ne.mpr fun h => hmm h.symm]
              rw [hym, Function.update_noteq hmm]
              cases hgl : groupFold l p.date.y with
              | some yd0 =>
                  show yd0.monthly m = _
                  exact (ih.2 yd0 hgl).2 m
              | none =>
                  have hempty : yrFilter l p.date.y = [] := ih.1.mp hgl
                  have hymnil : ymFilter l p.date.y m = [] := by
                    unfold ymFilter
                    rw [List.filter_eq_nil_iff]
                    intro a ha
                    have hna := (List.filter_eq_nil_iff.mp hempty) a ha
                    simp only [Bool.and_eq_true, beq_iff_eq] at hna ⊢
                    intro hcon
                    exact hna hcon.1
                  rw [hymnil]
                  rfl
      · have hstep : groupFold (l ++ [p]) y = groupFold l y := by
          rw [hfold]
          unfold groupStep
          exact Function.update_noteq (Ne.symm hy) _ _
        have hyr : yrFilter (l ++ [p]) y = yrFilter l y := by
          unfold yrFilter
          rw [List.filter_append]
          simp [hy]
        have hym : ∀ m, ymFilter (l ++ [p]) y m = ymFilter l y m := by
          intro m
          unfold ymFilter
          rw [List.filter_append]
          simp [hy]
        rw [hstep, hyr]
        refine ⟨ih.1, fun yd hyd => ⟨(ih.2 yd hyd).1, fun m => ?_⟩⟩
        rw [hym m]
        exact (ih.2 yd hyd).2 m

/-- The close of the last populated month before `k`, or the carried-in
previous-year end `E`. -/
def lastPopVal (yd : YearData) (k : Nat) (E : ℚ) : ℚ :=
  match ((List.range k).reverse.find?
      fun m => (yd.monthly m).isSome).bind yd.monthly with
  | some c => c
  | none => E

theorem lastPopVal_pos (yd : YearData) (k : Nat) (E : ℚ) (hE : 0 < E)
    (hpos : ∀ m c, yd.monthly m = some c → 0 < c) :
    0 < lastPopVal yd k E := by
  unfold lastPopVal
  cases hb : ((List.range k).reverse.find?
      fun m => (yd.monthly m).isSome).bind yd.monthly with
  | none => exact hE
  | some c =>
      obtain ⟨m0, _, hm0⟩ := Option.bind_eq_some.mp hb
      exact hpos m0 c hm0

/-- Invariant of the month loop: the threaded `prevMonthEnd` is the last
populated close (or the carried-in `E`), the compounded product of the
emitted returns telescopes to `prevMonthEnd / E`, and months ≥ `k` are still
null. -/
theorem monthFold_inv (yd : YearData) (E : ℚ) (hE : 0 < E)
    (hpos : ∀ m c, yd.monthly m = some c → 0 < c) :
    ∀ k, k ≤ 12 →
      ((List.range k).foldl (monthStep yd) (some E, fun _ => none)).1
          = some (lastPopVal yd k E) ∧
      prodOf ((List.range k).foldl (monthStep yd)
          (some E, fun _ => none)).2 = lastPopVal yd k E / E ∧
      ∀ m, k ≤ m →
        ((List.range k).foldl (monthStep yd)
          (some E, fun _ => none)).2 m = none := by
  intro k
  induction k with
  | zero =>
      intro _
      refine ⟨rfl, ?_, fun m _ => rfl⟩
      show prodOf (fun _ => none) = E / E
      rw [div_self (ne_of_gt hE)]
      simp [prodOf, gOpt]
  | succ k ih =>
      intro hk13
      have hk : k < 12 := by omega
      obtain ⟨h1, h2, h3⟩ := ih (le_of_lt hk)
      rw [List.range_succ, List.foldl_append, List.foldl_cons,
        List.foldl_nil]
      cases hmk : yd.monthly k with
      | none =>
          rw [monthStep_none yd _ k hmk]
          have hlast : lastPopVal yd (k + 1) E = lastPopVal yd k E := by
            unfold lastPopVal
            rw [List.range_succ, List.reverse_append,
              List.reverse_singleton, List.singleton_append,
              List.find?_cons_of_neg _ (by simp [hmk])]
          rw [hlast]
          exact ⟨h1, h2, fun m hm => h3 m (by omega)⟩
      | some c =>
          have hc : 0 < c := hpos k c hmk
          have hv0 : 0 < lastPopVal yd k E := lastPopVal_pos yd k E hE hpos
          have hstart : monthStartValue yd
              ((List.range k).foldl (monthStep yd)
                (some E, fun _ => none)).1 k
              = some (lastPopVal yd k E) := by
            unfold monthStartValue backClose lastPopVal
            cases hf : (List.range k).reverse.find?
                (fun m => (yd.monthly m).isSome) with
            | none =>
                simp only [Option.none_bind]
                rw [h1]
                congr 1
                unfold lastPopVal
                rw [hf]
                rfl
            | some m0 =>
                have hsome := List.find?_some hf
                obtain ⟨c0, hc0⟩ := Option.isSome_iff_exists.mp hsome
                simp only [Option.some_bind]
                rw [hc0]
          have hstep := monthStep_some_pos yd
            ((List.range k).foldl (monthStep yd) (some E, fun _ => none))
            k c (lastPopVal yd k E) hmk hstart hv0
          rw [hstep]
          have hlast : lastPopVal yd (k + 1) E = c := by
            unfold lastPopVal
            rw [List.range_succ, List.reverse_append,
              List.reverse_singleton, List.singleton_append,
              List.find?_cons_of_pos _ (by simp [hmk]),
              Option.some_bind, hmk]
          refine ⟨by rw [hlast], ?_, ?_⟩
          · dsimp only
            have hupd := prod_map_update (List.range 12)
              (List.nodup_range 12) k (List.mem_range.mpr hk)
              ((List.range k).foldl (monthStep yd)
                (some E, fun _ => none)).2
              ((c - lastPopVal yd k E) / lastPopVal yd k E * 100)
              (h3 k le_rfl)
            show prodOf _ = _
            unfold prodOf
            rw [hupd]
            have h2' : ((List.range 12).map fun m => gOpt
                (((List.range k).foldl (monthStep yd)
                  (some E, fun _ => none)).2 m)).prod
                = lastPopVal yd k E / E := h2
            rw [h2', hlast]
            field_simp
            ring
          · intro m hm
            dsimp only
            rw [Function.update_noteq (by omega : m ≠ k)]
            exact h3 m (by omega)

theorem entriesGo_length (data : Nat → Option YearData) :
    ∀ (ys : List Nat) (prev : Option Nat),
      (entriesGo data prev ys).length = ys.length := by
  intro ys
  induction ys with
  | nil => intro _; rfl
  | cons y t ih => intro prev; simp [entriesGo, ih]

theorem entriesGo_getD (data : Nat → Option YearData) :
    ∀ (ys : List Nat) (prev : Option Nat) (i : Nat), i < ys.length →
      (entriesGo data prev ys).getD i default =
        mkEntry data (if i = 0 then prev else some (ys.getD (i - 1) 0))
          (ys.getD i 0) := by
  intro ys
  induction ys with
  | nil => intro _ i hi; cases hi
  | cons y t ih =>
      intro prev i hi
      cases i with
      | zero => rfl
      | succ i =>
          rw [show entriesGo data prev (y :: t)
              = mkEntry data prev y :: entriesGo data (some y) t from rfl,
            List.getD_cons_succ, ih (some y) i (Nat.lt_of_succ_lt_succ hi)]
          cases i with
          | zero => simp
          | succ j => simp

theorem yearsOf_mem (returns : List ReturnPoint) (y : Nat) :
    y ∈ yearsOf returns ↔ ∃ p ∈ returns, p.date.y = y := by
  unfold yearsOf
  rw [Finset.mem_sort, List.mem_toFinset, List.mem_map]

theorem leb_same_year_month {a b : Date} (h : Date.leb a b = true)
    (hy : a.y = b.y) : a.m ≤ b.m := by
  unfold Date.leb at h
  rw [if_neg (by simp [hy])] at h
  by_cases hm : a.m ≠ b.m
  · rw [if_pos hm] at h
    exact le_of_lt (of_decide_eq_true h)
  · push_neg at hm
    omega

/-- C3 (amended): for every date-sorted equity curve with positive values
(and valid calendar months), and for every year of the table *after the
first*, the full-year return and the non-null monthly returns of that year
satisfy `1 + FY/100 = Π(1 + mᵢ/100)` — exactly, in the exact-arithmetic
model, hence in particular within floating-point tolerance.  (The first year
of the table is excluded: its full-year return is computed against the
year's first *value* while its monthly chain starts at the first month's
*close*, see the counterexample.) -/
theorem full_year_compounds (returns : List ReturnPoint)
    (hsort : returns.Pairwise fun a b => Date.leb a.date b.date = true)
    (hpos : ∀ p ∈ returns, 0 < p.value)
    (hmval : ∀ p ∈ returns, p.date.m < 12)
    (i : Nat) (hi1 : 1 ≤ i)
    (hi : i < (calculateMonthlyReturns returns).length) :
    1 + ((calculateMonthlyReturns returns).getD i default).fy / 100 =
      ((List.range 12).map fun m =>
        match ((calculateMonthlyReturns returns).getD i default).monthly m
          with
        | some r => 1 + r / 100
        | none => 1).prod := by
  have hlen : (calculateMonthlyReturns returns).length
      = (yearsOf returns).length := entriesGo_length _ _ _
  have hiy : i < (yearsOf returns).length := hlen ▸ hi
  have hentry : (calculateMonthlyReturns returns).getD i default =
      mkEntry (groupFold returns)
        (some ((yearsOf returns).getD (i - 1) 0))
        ((yearsOf returns).getD i 0) := by
    unfold calculateMonthlyReturns
    rw [entriesGo_getD _ _ _ i hiy, if_neg (by omega)]
  have hYmem : (yearsOf returns).getD i 0 ∈ yearsOf returns := by
    rw [List.getD_eq_getElem _ _ hiy]
    exact List.getElem_mem hiy
  have hPYmem : (yearsOf returns).getD (i - 1) 0 ∈ yearsOf returns := by
    have hlt : i - 1 < (yearsOf returns).length := by omega
    rw [List.getD_eq_getElem _ _ hlt]
    exact List.getElem_mem hlt
  obtain ⟨pY, hpYmem, hpYy⟩ := (yearsOf_mem returns _).mp hYmem
  obtain ⟨pP, hpPmem, hpPy⟩ := (yearsOf_mem returns _).mp hPYmem
  have hYfilter : yrFilter returns ((yearsOf returns).getD i 0) ≠ [] := by
    intro h0
    have := List.filter_eq_nil_iff.mp h0 pY hpYmem
    simp [hpYy] at this
  have hPYfilter : yrFilter returns ((yearsOf returns).getD (i - 1) 0)
      ≠ [] := by
    intro h0
    have := List.filter_eq_nil_iff.mp h0 pP hpPmem
    simp [hpPy] at this
  obtain ⟨yd, hyd⟩ : ∃ yd,
      groupFold returns ((yearsOf returns).getD i 0) = some yd := by
    cases hg : groupFold returns ((yearsOf returns).getD i 0) with
    | none => exact absurd ((groupFold_spec returns _).1.mp hg) hYfilter
    | some yd => exact ⟨yd, rfl⟩
  obtain ⟨yd', hyd'⟩ : ∃ yd,
      groupFold returns ((yearsOf returns).getD (i - 1) 0) = some yd := by
    cases hg : groupFold returns ((yearsOf returns).getD (i - 1) 0) with
    | none => exact absurd ((groupFold_spec returns _).1.mp hg) hPYfilter
    | some yd => exact ⟨yd, rfl⟩
  have charY := (groupFold_spec returns _).2 yd hyd
  have charP := (groupFold_spec returns _).2 yd' hyd'
  obtain ⟨q, hq⟩ : ∃ q,
      (yrFilter returns ((yearsOf returns).getD (i - 1) 0)).getLast?
        = some q := by
    cases hgl : (yrFilter returns
        ((yearsOf returns).getD (i - 1) 0)).getLast? with
    | none => exact absurd (List.getLast?_eq_none_iff.mp hgl) hPYfilter
    | some q => exact ⟨q, rfl⟩
  obtain ⟨pstar, hpstar⟩ : ∃ p,
      (yrFilter returns ((yearsOf returns).getD i 0)).getLast?
        = some p := by
    cases hgl : (yrFilter returns
        ((yearsOf returns).getD i 0)).getLast? with
    | none => exact absurd (List.getLast?_eq_none_iff.mp hgl) hYfilter
    | some p => exact ⟨p, rfl⟩
  have hqmem : q ∈ returns :=
    List.mem_of_mem_filter (List.mem_of_getLast?_eq_some hq)
  have hEpos : 0 < q.value := hpos q hqmem
  have hE : yd'.yearEnd = some q.value := by
    rw [charP.1, hq]
    rfl
  have hpstarmem_f : pstar ∈ yrFilter returns
      ((yearsOf returns).getD i 0) :=
    List.mem_of_getLast?_eq_some hpstar
  have hpstarmem : pstar ∈ returns := List.mem_of_mem_filter hpstarmem_f
  have hpstar_y : pstar.date.y = (yearsOf returns).getD i 0 := by
    have := (List.mem_filter.mp hpstarmem_f).2
    simpa using this
  have hyEnd : yd.yearEnd = some pstar.value := by
    rw [charY.1, hpstar]
    rfl
  have hydpos : ∀ m c, yd.monthly m = some c → 0 < c := by
    intro m c hmc
    rw [charY.2 m] at hmc
    cases hgl : (ymFilter returns ((yearsOf returns).getD i 0) m).getLast?
      with
    | none => rw [hgl] at hmc; cases hmc
    | some pt =>
        rw [hgl] at hmc
        have hvc : pt.value = c := Option.some_inj.mp hmc
        have hptm : pt ∈ returns :=
          List.mem_of_mem_filter (List.mem_of_getLast?_eq_some hgl)
        rw [← hvc]
        exact hpos pt hptm
  have hmonth_pstar : yd.monthly pstar.date.m = some pstar.value := by
    rw [charY.2]
    have hstr := getLast?_filter_strengthen
      (fun p => p.date.y == (yearsOf returns).getD i 0)
      (fun p => p.date.y == (yearsOf returns).getD i 0 &&
        p.date.m == pstar.date.m)
      (by intro a ha; simp only [Bool.and_eq_true] at ha; exact ha.1)
      returns pstar
      (show (returns.filter fun p =>
          p.date.y == (yearsOf returns).getD i 0).getLast? = some pstar
        from hpstar)
      (by simp [hpstar_y])
    rw [show ymFilter returns ((yearsOf returns).getD i 0) pstar.date.m
        = returns.filter (fun p =>
          p.date.y == (yearsOf returns).getD i 0 &&
            p.date.m == pstar.date.m) from rfl, hstr]
    rfl
  have hbound : ∀ j, pstar.date.m < j → j < 12 →
      (yd.monthly j).isSome = false := by
    intro j hj1 _
    cases hmj : yd.monthly j with
    | none => rfl
    | some cj =>
        exfalso
        rw [charY.2 j] at hmj
        cases hgl : (ymFilter returns ((yearsOf returns).getD i 0)
            j).getLast? with
        | none => rw [hgl] at hmj; cases hmj
        | some pt =>
            have hptf : pt ∈ ymFilter returns
                ((yearsOf returns).getD i 0) j :=
              List.mem_of_getLast?_eq_some hgl
            have hptY : pt.date.y = (yearsOf returns).getD i 0
                ∧ pt.date.m = j := by
              have := (List.mem_filter.mp hptf).2
              simpa using this
            have hptyr : pt ∈ yrFilter returns
                ((yearsOf returns).getD i 0) :=
              List.mem_filter.mpr
                ⟨List.mem_of_mem_filter hptf, by simp [hptY.1]⟩
            have hpair : (yrFilter returns
                ((yearsOf returns).getD i 0)).Pairwise
                (fun a b => Date.leb a.date b.date = true) :=
              hsort.filter _
            rcases pairwise_upper _ _ pstar hpair hpstar pt hptyr with
              heq | hle
            · rw [heq] at hptY
              omega
            · have hyeq : pt.date.y = pstar.date.y := by
                rw [hptY.1, hpstar_y]
              have := leb_same_year_month hle hyeq
              omega
  have hmlt : pstar.date.m < 12 := hmval pstar hpstarmem
  have hfind : ((List.range 12).reverse.find?
      fun m => (yd.monthly m).isSome) = some pstar.date.m :=
    find?_reverse_range _ 12 pstar.date.m hmlt
      (by rw [hmonth_pstar]; rfl) hbound
  have hlastPop : lastPopVal yd 12 q.value = pstar.value := by
    unfold lastPopVal
    rw [hfind, Option.some_bind, hmonth_pstar]
  obtain ⟨-, hfold2, -⟩ := monthFold_inv yd q.value hEpos hydpos 12 le_rfl
  have hstarpos : 0 < pstar.value := hpos pstar hpstarmem
  rw [hentry]
  have hfy : (mkEntry (groupFold returns)
      (some ((yearsOf returns).getD (i - 1) 0))
      ((yearsOf returns).getD i 0)).fy
      = (pstar.value - q.value) / q.value * 100 := by
    show fyOf ((groupFold returns ((yearsOf returns).getD i 0)).getD
        emptyYearData)
      (((groupFold returns ((yearsOf returns).getD (i - 1) 0)).getD
        emptyYearData).yearEnd) = _
    rw [hyd, hyd']
    show fyOf yd yd'.yearEnd = _
    rw [hE]
    unfold fyOf
    rw [hyEnd]
    exact if_pos ⟨hEpos, ne_of_gt hstarpos⟩
  have hmon : (mkEntry (groupFold returns)
      (some ((yearsOf returns).getD (i - 1) 0))
      ((yearsOf returns).getD i 0)).monthly
      = ((List.range 12).foldl (monthStep yd)
        (some q.value, fun _ => none)).2 := by
    show monthlyRetOf ((groupFold returns
        ((yearsOf returns).getD i 0)).getD emptyYearData)
      (((groupFold returns ((yearsOf returns).getD (i - 1) 0)).getD
        emptyYearData).yearEnd) = _
    rw [hyd, hyd']
    show monthlyRetOf yd yd'.yearEnd = _
    rw [hE]
    rfl
  rw [hfy, hmon]
  have hprod : ((List.range 12).map fun m =>
      match ((List.range 12).foldl (monthStep yd)
        (some q.value, fun _ => none)).2 m with
      | some r => 1 + r / 100
      | none => 1).prod
      = prodOf ((List.range 12).foldl (monthStep yd)
        (some q.value, fun _ => none)).2 := rfl
  rw [hprod, hfold2, hlastPop]
  field_simp
  ring

/-- C3 witness: on a two-year curve (Nov–Dec 2020, Jan and Apr 2021) the
second year's full-year return 300/11 % compounds its monthly returns:
`1 + FY/100 = 14/11 = (1+10/100)·(1+(1900/121)/100)`. -/
theorem full_year_compounds_witness :
    1 + ((calculateMonthlyReturns
        [⟨⟨2020, 10, 30⟩, 100, 0⟩, ⟨⟨2020, 11, 31⟩, 110, 0⟩,
          ⟨⟨2021, 0, 31⟩, 121, 0⟩, ⟨⟨2021, 3, 30⟩, 140, 0⟩]).getD 1
      default).fy / 100 =
    ((List.range 12).map fun m =>
      match ((calculateMonthlyReturns
          [⟨⟨2020, 10, 30⟩, 100, 0⟩, ⟨⟨2020, 11, 31⟩, 110, 0⟩,
            ⟨⟨2021, 0, 31⟩, 121, 0⟩, ⟨⟨2021, 3, 30⟩, 140, 0⟩]).getD 1
        default).monthly m with
      | some r => 1 + r / 100
      | none => 1).prod := by
  apply full_year_compounds
  · refine List.Pairwise.cons ?_ (List.Pairwise.cons ?_
      (List.Pairwise.cons ?_ (List.pairwise_singleton _ _))) <;>
      intro b hb <;> fin_cases hb <;> decide
  · intro p hp; fin_cases hp <;> norm_num
  · intro p hp; fin_cases hp <;> decide
  · decide
  · show 1 < (calculateMonthlyReturns _).length
    unfold calculateMonthlyReturns
    rw [entriesGo_length]
    have hys : yearsOf [⟨⟨2020, 10, 30⟩, 100, 0⟩, ⟨⟨2020, 11, 31⟩, 110, 0⟩,
        (⟨⟨2021, 0, 31⟩, 121, 0⟩ : ReturnPoint), ⟨⟨2021, 3, 30⟩, 140, 0⟩]
        = [2020, 2021] := by
      unfold yearsOf
      rw [show List.map (fun (p : ReturnPoint) => p.date.y)
          [⟨⟨2020, 10, 30⟩, 100, 0⟩, ⟨⟨2020, 11, 31⟩, 110, 0⟩,
            ⟨⟨2021, 0, 31⟩, 121, 0⟩, ⟨⟨2021, 3, 30⟩, 140, 0⟩]
          = [2020, 2020, 2021, 2021] from rfl]
      rw [show ([2020, 2020, 2021, 2021] : List Nat).toFinset = insert 2020 {2021} by decide]
      rw [Finset.sort_insert (· ≤ ·) (by decide) (by decide), Finset.sort_singleton]
    rw [hys]
    decide

/-! ## Claim C2 — trend-following analysis null condition

`calculateTrendFollowingAnalysis` (source lines 1694-1876).  The monthly
grouping and the buy-and-hold leg are exact (ℚ); the trend-following leg and
the statistics use ℝ because the source computes fractional powers
(`Math.pow(1 + riskFreeRate, 1/12)`, CAGR) and square roots there. -/

/-- State of the monthly-price grouping loop (source lines 1717-1738):
`currentMonth`/`currentYear` start at −1, `lastValid` models
`lastValidRow`, `acc` the `monthlyPrices` array built so far. -/
structure MPState where
  currentMonth : Int
  currentYear : Int
  lastValid : Option (Date × ℚ)
  acc : List (Date × ℚ)
deriving DecidableEq, Repr

/-- One iteration of the grouping loop (source lines 1722-1738): rows whose
ticker value is missing or ≤ 0 are skipped; on a month/year change the
previous month's last valid row is pushed. -/
def mpStep (ticker : String) (st : MPState) (row : AssetRow) : MPState :=
  match row.get ticker with
  | none => st
  | some price =>
      if price ≤ 0 then st
      else
        ⟨(row.date.m : Int), (row.date.y : Int), some (row.date, price),
          if ((row.date.m : Int) ≠ st.currentMonth ∨
              (row.date.y : Int) ≠ st.currentYear) then
            match st.lastValid with
            | some lv => st.acc ++ [lv]
            | none => st.acc
          else st.acc⟩

/-- The `monthlyPrices` array (source lines 1717-1743): last valid price of
each month of the filtered table, the final month flushed after the loop. -/
def monthlyPrices (ticker : String) (filteredData : List AssetRow) :
    List (Date × ℚ) :=
  match (filteredData.foldl (mpStep ticker) ⟨-1, -1, none, []⟩).lastValid with
  | some lv => (filteredData.foldl (mpStep ticker) ⟨-1, -1, none, []⟩).acc ++ [lv]
  | none => (filteredData.foldl (mpStep ticker) ⟨-1, -1, none, []⟩).acc

/-- One chart point (source `TrendFollowingPoint`); `sma10` stores the
normalized SMA `sma10 / firstPrice` pushed by the source. -/
structure TrendPoint where
  date : Date
  price : ℚ
  buyHoldValue : ℚ
  trendFollowingValue : ℝ
  sma10 : ℚ
  signal : Signal

/-- One drawdown point (source `TrendDrawdownPoint`). -/
structure TrendDrawdownPoint where
  date : Date
  buyHoldDrawdown : ℝ
  trendFollowingDrawdown : ℝ

/-- The statistics record (source `TrendStats`). -/
structure TrendStats where
  finalAmount : ℝ
  cagr : ℝ
  totalReturn : ℝ
  stdDev : ℝ
  maxDrawdown : ℝ
  currentDrawdown : ℝ
  sharpeRatio : ℝ

/-- State of the chart loop (source lines 1755-1761 plus the two arrays). -/
structure TFState where
  buyHoldValue : ℚ
  trendFollowingValue : ℝ
  previousSignal : Option Signal
  isInvested : Bool
  firstPrice : Option ℚ
  chartData : List TrendPoint
  signalChanges : List SignalChange

/-- One iteration of the chart loop (source lines 1765-1845) at index `i`:
10-month SMA over `monthlyPrices[i−9..i]`, signal `BUY` iff price > SMA, the
`i = 9` start special case, return application by held position, commission
on signal change, and the unconditional chart-point push. -/
noncomputable def tfStep (rfm : ℝ) (commission : ℚ) (mp : List (Date × ℚ))
    (st : TFState) (i : Nat) : TFState :=
  let cur := mp.getD i default
  let prev := mp.getD (i - 1) default
  let sma10 : ℚ :=
    (((List.range 10).map fun k => (mp.getD (i - 9 + k) default).2).sum) / 10
  let firstPrice := st.firstPrice.getD cur.2
  let signal : Signal := if sma10 < cur.2 then .BUY else .SELL
  let monthlyReturn : ℚ := (cur.2 - prev.2) / prev.2
  let st' : TFState :=
    if i = 9 then
      { st with
        isInvested := signal = .BUY
        previousSignal := some signal
        firstPrice := some firstPrice
        signalChanges := st.signalChanges ++ [⟨cur.1, signal, cur.2, 1⟩] }
    else
      if some signal ≠ st.previousSignal then
        { st with
          buyHoldValue := st.buyHoldValue * (1 + monthlyReturn)
          trendFollowingValue := st.trendFollowingValue *
            (if st.isInvested then ((1 : ℝ) + (monthlyReturn : ℝ))
              else 1 + rfm) * (1 - (commission : ℝ))
          signalChanges := st.signalChanges ++
            [⟨cur.1, signal, cur.2, st.buyHoldValue * (1 + monthlyReturn)⟩]
          isInvested := signal = .BUY
          previousSignal := some signal
          firstPrice := some firstPrice }
      else
        { st with
          buyHoldValue := st.buyHoldValue * (1 + monthlyReturn)
          trendFollowingValue := st.trendFollowingValue *
            (if st.isInvested then ((1 : ℝ) + (monthlyReturn : ℝ))
              else 1 + rfm)
          firstPrice := some firstPrice }
  { st' with chartData := st.chartData ++
      [⟨cur.1, cur.2, st'.buyHoldValue, st'.trendFollowingValue,
        sma10 / firstPrice, signal⟩] }

/-- The chart loop (source lines 1765-1845): indices `9, …, length−1` over
the monthly prices, both strategies started at 1. -/
noncomputable def tfLoop (rfm : ℝ) (commission : ℚ)
    (mp : List (Date × ℚ)) : TFState :=
  (List.range' 9 (mp.length - 9)).foldl (tfStep rfm commission mp)
    ⟨1, 1, none, false, none, [], []⟩

/-- `calculateTrendDrawdowns` (source lines 2055-2078): running peaks start
at 0, drawdowns as negative percentages. -/
noncomputable def calculateTrendDrawdowns (chartData : List TrendPoint) :
    List TrendDrawdownPoint :=
  (chartData.foldl (fun (st : ℝ × ℝ × List TrendDrawdownPoint) point =>
    let bp := if st.1 < (point.buyHoldValue : ℝ) then (point.buyHoldValue : ℝ)
      else st.1
    let tp := if st.2.1 < point.trendFollowingValue
      then point.trendFollowingValue else st.2.1
    (bp, tp, st.2.2 ++
      [⟨point.date, ((point.buyHoldValue : ℝ) - bp) / bp * 100,
        (point.trendFollowingValue - tp) / tp * 100⟩]))
    (0, 0, [])).2.2

/-- Days between the civil date (y, m 1-based, d) and the Unix epoch —
`new Date(iso).getTime()` is this count times 86400000. -/
def daysFromCivil (y m d : Int) : Int :=
  ((if m ≤ 2 then y - 1 else y) / 400) * 146097 +
    ((if m ≤ 2 then y - 1 else y) % 400) * 365 +
    ((if m ≤ 2 then y - 1 else y) % 400) / 4 -
    ((if m ≤ 2 then y - 1 else y) % 400) / 100 +
    (153 * (if 2 < m then m - 3 else m + 9) + 2) / 5 + d - 1 - 719468

/-- The epoch-day count of a model date (whose month is 0-based). -/
def Date.epochDays (dt : Date) : Int :=
  daysFromCivil dt.y (dt.m + 1) dt.d

/-- `(endDate.getTime() − startDate.getTime()) / (365.25·24·60·60·1000)`
(source line 2114), in exact arithmetic. -/
def yearsBetween (a b : Date) : ℚ :=
  ((b.epochDays - a.epochDays : Int) : ℚ) * 86400000 /
    (365.25 * 24 * 60 * 60 * 1000)

/-- `calculateTrendStats` (source lines 2088-2158); never null — curves
shorter than 2 get the all-default record (line 2094). -/
noncomputable def calculateTrendStats (equityCurve : List ℝ)
    (dates : List Date) (riskFreeRate : ℚ) : TrendStats :=
  if equityCurve.length < 2 then ⟨1, 0, 0, 0, 0, 0, 0⟩
  else
    let startValue := equityCurve.getD 0 0
    let endValue := equityCurve.getD (equityCurve.length - 1) 0
    let totalReturn := (endValue - startValue) / startValue * 100
    let years : ℚ :=
      yearsBetween (dates.getD 0 default) (dates.getD (dates.length - 1) default)
    let cagr : ℝ := if 0 < years then
      ((endValue / startValue) ^ ((1 : ℝ) / (years : ℝ)) - 1) * 100 else 0
    let monthlyReturns : List ℝ :=
      (List.range (equityCurve.length - 1)).map fun i =>
        (equityCurve.getD (i + 1) 0 - equityCurve.getD i 0) /
          equityCurve.getD i 0
    let mean := monthlyReturns.sum / (monthlyReturns.length : ℝ)
    let variance := (monthlyReturns.map fun r => (r - mean) ^ 2).sum /
      (monthlyReturns.length : ℝ)
    let stdDev := Real.sqrt variance * Real.sqrt 12 * 100
    let pm := equityCurve.foldl (fun (pm : ℝ × ℝ) v =>
      ((if pm.1 < v then v else pm.1),
        if (v - (if pm.1 < v then v else pm.1)) /
            (if pm.1 < v then v else pm.1) * 100 < pm.2 then
          (v - (if pm.1 < v then v else pm.1)) /
            (if pm.1 < v then v else pm.1) * 100
        else pm.2)) (0, 0)
    let currentDrawdown := (endValue - pm.1) / pm.1 * 100
    let sharpeRatio := if 0 < stdDev then
      (cagr - (riskFreeRate : ℝ) * 100) / stdDev else 0
    ⟨endValue, cagr, totalReturn, stdDev, pm.2, currentDrawdown, sharpeRatio⟩

/-- The non-null result record of `calculateTrendFollowingAnalysis`. -/
structure TrendResult where
  chartData : List TrendPoint
  drawdownData : List TrendDrawdownPoint
  buyHoldStats : TrendStats
  trendFollowingStats : TrendStats
  signalChanges : List SignalChange
  successRate : Option SuccessRate

/-- `calculateTrendFollowingAnalysis` (source lines 1694-1876); `none`
models the source's `null`. -/
noncomputable def calculateTrendFollowingAnalysis (ticker : String)
    (data : List AssetRow) (range : DateRange)
    (riskFreeRate commission : ℚ) : Option TrendResult :=
  if data = [] then none
  else if (filteredRows data range).length < 12 then none
  else if (monthlyPrices ticker (filteredRows data range)).length < 10 then
    none
  else if (tfLoop (((1 : ℝ) + (riskFreeRate : ℝ)) ^ ((1 : ℝ) / 12) - 1)
      commission (monthlyPrices ticker
        (filteredRows data range))).chartData.length = 0 then none
  else
    some
      ⟨(tfLoop (((1 : ℝ) + (riskFreeRate : ℝ)) ^ ((1 : ℝ) / 12) - 1)
          commission (monthlyPrices ticker (filteredRows data range))).chartData,
        calculateTrendDrawdowns
          (tfLoop (((1 : ℝ) + (riskFreeRate : ℝ)) ^ ((1 : ℝ) / 12) - 1)
            commission (monthlyPrices ticker (filteredRows data range))).chartData,
        calculateTrendStats
          ((tfLoop (((1 : ℝ) + (riskFreeRate : ℝ)) ^ ((1 : ℝ) / 12) - 1)
            commission (monthlyPrices ticker (filteredRows data range))).chartData.map
            fun d => ((d.buyHoldValue : ℚ) : ℝ))
          ((tfLoop (((1 : ℝ) + (riskFreeRate : ℝ)) ^ ((1 : ℝ) / 12) - 1)
            commission (monthlyPrices ticker (filteredRows data range))).chartData.map
            fun d => d.date) riskFreeRate,
        calculateTrendStats
          ((tfLoop (((1 : ℝ) + (riskFreeRate : ℝ)) ^ ((1 : ℝ) / 12) - 1)
            commission (monthlyPrices ticker (filteredRows data range))).chartData.map
            fun d => d.trendFollowingValue)
          ((tfLoop (((1 : ℝ) + (riskFreeRate : ℝ)) ^ ((1 : ℝ) / 12) - 1)
            commission (monthlyPrices ticker (filteredRows data range))).chartData.map
            fun d => d.date) riskFreeRate,
        (tfLoop (((1 : ℝ) + (riskFreeRate : ℝ)) ^ ((1 : ℝ) / 12) - 1)
          commission (monthlyPrices ticker (filteredRows data range))).signalChanges,
        calculateSuccessRate
          (tfLoop (((1 : ℝ) + (riskFreeRate : ℝ)) ^ ((1 : ℝ) / 12) - 1)
            commission (monthlyPrices ticker (filteredRows data range))).signalChanges⟩

theorem tfStep_chartData_length (rfm : ℝ) (commission : ℚ)
    (mp : List (Date × ℚ)) (st : TFState) (i : Nat) :
    (tfStep rfm commission mp st i).chartData.length
      = st.chartData.length + 1 := by
  simp [tfStep]

theorem tfFold_chartData_length (rfm : ℝ) (commission : ℚ)
    (mp : List (Date × ℚ)) (l : List Nat) :
    ∀ st : TFState,
      (l.foldl (tfStep rfm commission mp) st).chartData.length
        = st.chartData.length + l.length := by
  induction l with
  | nil => intro st; simp
  | cons a t ih =>
      intro st
      rw [List.foldl_cons, ih, tfStep_chartData_length]
      simp only [List.length_cons]
      omega

theorem tfLoop_chartData_length (rfm : ℝ) (commission : ℚ)
    (mp : List (Date × ℚ)) :
    (tfLoop rfm commission mp).chartData.length = mp.length - 9 := by
  unfold tfLoop
  rw [tfFold_chartData_length]
  simp

/-- Price table for the C2 counterexample: ten rows, one per calendar month
of 2020, every row carrying a positive price for ticker `A`. -/
def trendRows : List AssetRow :=
  [⟨⟨2020, 0, 31⟩, [("A", 100)]⟩, ⟨⟨2020, 1, 28⟩, [("A", 100)]⟩,
   ⟨⟨2020, 2, 31⟩, [("A", 100)]⟩, ⟨⟨2020, 3, 30⟩, [("A", 100)]⟩,
   ⟨⟨2020, 4, 29⟩, [("A", 100)]⟩, ⟨⟨2020, 5, 30⟩, [("A", 100)]⟩,
   ⟨⟨2020, 6, 31⟩, [("A", 100)]⟩, ⟨⟨2020, 7, 31⟩, [("A", 100)]⟩,
   ⟨⟨2020, 8, 30⟩, [("A", 100)]⟩, ⟨⟨2020, 9, 30⟩, [("A", 100)]⟩]

/-- C2 counterexample: ten rows in ten distinct months give exactly 10
monthly observations — the claim promises a non-null result — yet
`calculateTrendFollowingAnalysis` returns `null`, because the table has
fewer than 12 rows (source line 1714). -/
theorem C2_counterexample :
    (monthlyPrices "A" (filteredRows trendRows wideRange)).length = 10 ∧
      calculateTrendFollowingAnalysis "A" trendRows wideRange 0 0 = none := by
  constructor
  · decide
  · unfold calculateTrendFollowingAnalysis
    rw [if_neg (by decide), if_pos (by decide)]

/-- C2 (amended): `calculateTrendFollowingAnalysis` returns `null` exactly
when the date-range-filtered table has fewer than 12 rows or fewer than 10
monthly observations (last-valid-price-per-month points for the ticker) are
available; with at least 12 filtered rows and at least 10 monthly
observations the result is non-null. -/
theorem trend_analysis_null_iff (ticker : String) (data : List AssetRow)
    (range : DateRange) (riskFreeRate commission : ℚ) :
    calculateTrendFollowingAnalysis ticker data range riskFreeRate commission
        = none ↔
      (filteredRows data range).length < 12 ∨
        (monthlyPrices ticker (filteredRows data range)).length < 10 := by
  unfold calculateTrendFollowingAnalysis
  by_cases hd : data = []
  · rw [if_pos hd]
    refine iff_of_true rfl (Or.inl ?_)
    subst hd
    simp [filteredRows]
  · rw [if_neg hd]
    by_cases h12 : (filteredRows data range).length < 12
    · rw [if_pos h12]
      exact iff_of_true rfl (Or.inl h12)
    · rw [if_neg h12]
      by_cases h10 : (monthlyPrices ticker (filteredRows data range)).length < 10
      · rw [if_pos h10]
        exact iff_of_true rfl (Or.inr h10)
      · rw [if_neg h10]
        rw [if_neg (by rw [tfLoop_chartData_length]; omega)]
        refine iff_of_false (by simp) ?_
        intro h
        rcases h with h | h
        · exact h12 h
        · exact h10 h

end Backtester
